import Mathlib

/-!
# Packet-Sniffer: a shallow embedding of `analysis.c` and `dispatch.c`

The development follows the two C translation units of the sniffer.

* `analysis.c` keeps four global `unsigned int` counters and the function
  `analyse`, which overlays the system header structures on the bytes at the
  `packet` pointer.  The memory reachable from `packet` is a `List Nat`; a read
  takes the stored value modulo 256 and a read past the end of the list yields
  0, so the list is the part of memory in front of an all-zero tail.  The list
  may be longer than `caplen`: nothing in `analyse` looks at `caplen` when it
  dereferences.
* `dispatch.c` keeps the globals `i`, `verb`, `queue`, `threads` and builds a
  singly linked list on the C heap.  The heap is a typed store addressed by
  natural numbers, `malloc` hands out fresh addresses and never fails, and an operation
  whose C execution dereferences a pointer that is not live returns `none`.
* The last part repeats the functions as instrumented computations that record
  every dereference of `packet` and every mutex call; each is proved to return
  what the plain function returns.

Field offsets come from the glibc headers the source includes
(`<net/ethernet.h>`, `<net/if_arp.h>`, `<netinet/if_ether.h>`,
`<netinet/ip.h>`, `<netinet/tcp.h>`) on a little-endian host.
-/

namespace PacketSniffer

/-! ## analysis.c -/

/-- The `struct pcap_pkthdr` of libpcap: timestamp, captured length, wire length. -/
structure pcap_pkthdr where
  tv_sec : Int
  tv_usec : Int
  caplen : Nat
  len : Nat
deriving DecidableEq, Repr

/-- The four global counters of `analysis.c` (lines 16-19), each an `unsigned int`. -/
structure Counters where
  cnt_xmasscan : Nat
  cnt_arppois : Nat
  cnt_blacklisturl : Nat
  cnt_pkts : Nat
deriving DecidableEq, Repr

/-- The state at program start: every counter is initialised to 0. -/
def Counters.zero : Counters := ⟨0, 0, 0, 0⟩

/-- The C statement `cnt++` on a 32-bit `unsigned int`. -/
def incr (n : Nat) : Nat := (n + 1) % 2 ^ 32

/-- The `unsigned char` stored `k` bytes after the `packet` pointer. -/
def byteAt (packet : List Nat) (k : Nat) : Nat := packet.getD k 0 % 256

/-- A 16-bit load at offset `k` on a little-endian host. -/
def load16 (packet : List Nat) (k : Nat) : Nat :=
  byteAt packet k + 256 * byteAt packet (k + 1)

/-- The libc `ntohs` on a little-endian host: swap the two bytes. -/
def ntohs (x : Nat) : Nat := x % 256 * 256 + x / 256 % 256

/-- The constant `ETH_HLEN` of `<linux/if_ether.h>`. -/
def ETH_HLEN : Nat := 14

/-- The field `ether_type` of `struct ether_header`: offset 12 of the frame. -/
def ether_type (packet : List Nat) : Nat := load16 packet 12

/-- The field `arp_op` (`ea_hdr.ar_op`) of a `struct ether_arp` that starts at
offset `arphdr`: it follows `ar_hrd`, `ar_pro`, `ar_hln`, `ar_pln`, at +6. -/
def arp_op (packet : List Nat) (arphdr : Nat) : Nat := load16 packet (arphdr + 6)

/-- The bit-field `ihl` of a `struct iphdr` that starts at offset `iphdr`:
the low nibble of its first byte. -/
def iphdr_ihl (packet : List Nat) (iphdr : Nat) : Nat := byteAt packet iphdr % 16

/-- The field `dest` of a `struct tcphdr` that starts at offset `tcphdr`. -/
def tcphdr_dest (packet : List Nat) (tcphdr : Nat) : Nat := load16 packet (tcphdr + 2)

/-- The bit-field `doff` of a `struct tcphdr`: high nibble of byte 12. -/
def tcphdr_doff (packet : List Nat) (tcphdr : Nat) : Nat := byteAt packet (tcphdr + 12) / 16

/-- The bit-field `fin` of a `struct tcphdr`: bit 0x01 of byte 13. -/
def tcphdr_fin (packet : List Nat) (tcphdr : Nat) : Nat := byteAt packet (tcphdr + 13) % 2

/-- The bit-field `psh` of a `struct tcphdr`: bit 0x08 of byte 13. -/
def tcphdr_psh (packet : List Nat) (tcphdr : Nat) : Nat := byteAt packet (tcphdr + 13) / 8 % 2

/-- The bit-field `urg` of a `struct tcphdr`: bit 0x20 of byte 13. -/
def tcphdr_urg (packet : List Nat) (tcphdr : Nat) : Nat := byteAt packet (tcphdr + 13) / 32 % 2

/-- The string literal `"Host: www.bbc.co.uk"` of line 222, as bytes. -/
def blacklisted : List Nat := "Host: www.bbc.co.uk".toList.map Char.toNat

/-- Does the string `needle` occur at the very start of the memory `hay`?
A zero byte of `hay`, or its end, never equals a byte of `needle`. -/
def matchAt : List Nat → List Nat → Bool
  | _, [] => true
  | [], _ :: _ => false
  | h :: hs, n :: ns => h % 256 == n && matchAt hs ns

/-- The libc `strstr(hay, needle)` for a non-empty `needle`: the offset of the
first occurrence of `needle` in the zero-terminated string that starts at
`hay`, or `none` for the `NULL` result.  The scan ends at the first zero byte;
no length bounds it. -/
def strstr : List Nat → List Nat → Option Nat
  | [], _ => none
  | h :: hs, needle =>
    if matchAt (h :: hs) needle then some 0
    else if h % 256 = 0 then none
    else (strstr hs needle).map (· + 1)

/-- The function `analyse` of `analysis.c` (lines 38-229) as a transformer of
the global counters.  `header` and `verbose` only feed `printf`. -/
def analyse (_header : pcap_pkthdr) (packet : List Nat) (_verbose : Int)
    (c : Counters) : Counters :=
  let eth_type := ntohs (ether_type packet)
  let c1 :=
    if eth_type = 2054 then
      let c := { c with cnt_pkts := incr c.cnt_pkts }
      let arphdr := 14
      if ntohs (arp_op packet arphdr) = 2 then
        { c with cnt_arppois := incr c.cnt_arppois }
      else c
    else c
  if eth_type = 2048 then
    let c2 := { c1 with cnt_pkts := incr c1.cnt_pkts }
    let iphdr := ETH_HLEN
    let networkpayload := ETH_HLEN + 4 * iphdr_ihl packet iphdr
    let c3 :=
      if tcphdr_psh packet networkpayload = 1 ∧ tcphdr_urg packet networkpayload = 1
          ∧ tcphdr_fin packet networkpayload = 1 then
        { c2 with cnt_xmasscan := incr c2.cnt_xmasscan }
      else c2
    if ntohs (tcphdr_dest packet networkpayload) = 80 then
      let payload := networkpayload + 4 * tcphdr_doff packet networkpayload
      if (strstr (packet.drop payload) blacklisted).isSome then
        { c3 with cnt_blacklisturl := incr c3.cnt_blacklisturl }
      else c3
    else c3
  else c1

/-- The offset of the TCP header as `analyse` computes it (line 194). -/
def tcpOffset (packet : List Nat) : Nat := ETH_HLEN + 4 * iphdr_ihl packet ETH_HLEN

/-- The offset at which `analyse` starts the blacklist search (line 221). -/
def payloadOffset (packet : List Nat) : Nat :=
  tcpOffset packet + 4 * tcphdr_doff packet (tcpOffset packet)

/-- The test of line 210: PSH, URG and FIN are all 1. -/
def xmasFlags (packet : List Nat) : Prop :=
  tcphdr_psh packet (tcpOffset packet) = 1 ∧ tcphdr_urg packet (tcpOffset packet) = 1
    ∧ tcphdr_fin packet (tcpOffset packet) = 1

instance (packet : List Nat) : Decidable (xmasFlags packet) := by
  unfold xmasFlags; infer_instance

/-- The tests of lines 220 and 222: destination port 80 and `strstr` not `NULL`. -/
def blacklistHit (packet : List Nat) : Prop :=
  ntohs (tcphdr_dest packet (tcpOffset packet)) = 80 ∧
    (strstr (packet.drop (payloadOffset packet)) blacklisted).isSome = true

instance (packet : List Nat) : Decidable (blacklistHit packet) := by
  unfold blacklistHit; infer_instance

/-- The big-endian 16-bit value at frame bytes 12-13 is 0x0806 or 0x0800. -/
def recognisedType (packet : List Nat) : Bool :=
  decide (byteAt packet 12 * 256 + byteAt packet 13 = 0x0806 ∨
    byteAt packet 12 * 256 + byteAt packet 13 = 0x0800)

/-- A captured frame as `analyse` receives it: the capture header and the
memory at the `packet` pointer. -/
structure Frame where
  header : pcap_pkthdr
  packet : List Nat
deriving DecidableEq, Repr

/-- Successive calls of `analyse`, one per frame, in list order. -/
def analyse_frames (verbose : Int) (frames : List Frame) (c : Counters) : Counters :=
  frames.foldl (fun acc f => analyse f.header f.packet verbose acc) c

/-- A 54-byte Ethernet + IPv4 + TCP frame: IHL 5, data offset 5, destination
port 443, flags URG, PSH and FIN. -/
def xmasFrame : List Nat :=
  [0, 0, 0, 0, 0, 0, 0, 0, 0, 0, 0, 0, 0x08, 0x00,
   0x45, 0, 0, 40, 0, 0, 0, 0, 64, 6, 0, 0, 10, 0, 0, 1, 10, 0, 0, 2,
   0x30, 0x39, 0x01, 0xBB, 0, 0, 0, 0, 0, 0, 0, 0, 0x50, 0x29, 0, 0, 0, 0, 0, 0]

/-- A 42-byte Ethernet + ARP frame with operation code 2 (reply). -/
def arpReplyFrame : List Nat :=
  [0, 0, 0, 0, 0, 0, 0, 0, 0, 0, 0, 0, 0x08, 0x06,
   0, 1, 0x08, 0, 6, 4, 0, 2,
   1, 2, 3, 4, 5, 6, 10, 0, 0, 1, 6, 5, 4, 3, 2, 1, 10, 0, 0, 2]

/-- A 42-byte Ethernet + ARP frame with operation code 1 (request). -/
def arpRequestFrame : List Nat :=
  [0, 0, 0, 0, 0, 0, 0, 0, 0, 0, 0, 0, 0x08, 0x06,
   0, 1, 0x08, 0, 6, 4, 0, 1,
   1, 2, 3, 4, 5, 6, 10, 0, 0, 1, 0, 0, 0, 0, 0, 0, 10, 0, 0, 2]

/-- An IPv4 frame (IHL 5) cut off two bytes into the TCP header: 36 bytes. -/
def truncatedFrame : List Nat :=
  [0, 0, 0, 0, 0, 0, 0, 0, 0, 0, 0, 0, 0x08, 0x00,
   0x45, 0, 0, 40, 0, 0, 0, 0, 64, 6, 0, 0, 10, 0, 0, 1, 10, 0, 0, 2,
   0x30, 0x39]

/-- A 14-byte frame with Ethernet type 0x86DD (IPv6). -/
def ipv6Frame : List Nat := [0, 0, 0, 0, 0, 0, 0, 0, 0, 0, 0, 0, 0x86, 0xDD]

/-- The zero-terminated string stored at the start of the memory `hay`: its
bytes up to, not including, the first zero byte. -/
def cstring (hay : List Nat) : List Nat :=
  (hay.map (· % 256)).takeWhile (fun b => b != 0)

/-- The captured payload of a frame: the bytes below `caplen` from the offset
at which `analyse` starts its search. -/
def capturedPayload (header : pcap_pkthdr) (packet : List Nat) : List Nat :=
  (packet.take header.caplen).drop (payloadOffset packet)

/-- The bytes of `"Host: www.other.com"`. -/
def otherHost : List Nat := "Host: www.other.com".toList.map Char.toNat

/-- A 54-byte Ethernet + IPv4 + TCP header block: IHL 5, protocol 6, data
offset 5, destination port 80, flags PSH and ACK. -/
def httpHeaders : List Nat :=
  [0, 0, 0, 0, 0, 0, 0, 0, 0, 0, 0, 0, 0x08, 0x00,
   0x45, 0, 0, 60, 0, 0, 0, 0, 64, 6, 0, 0, 10, 0, 0, 1, 10, 0, 0, 2,
   0x30, 0x39, 0x00, 0x50, 0, 0, 0, 0, 0, 0, 0, 0, 0x50, 0x18, 0, 0, 0, 0, 0, 0]

/-- A port-80 frame whose payload is a zero byte followed by the blacklisted
host line; all 74 bytes are captured. -/
def nulFrame : List Nat := httpHeaders ++ 0 :: blacklisted

/-- A port-80 frame whose 73 captured bytes end with `"Host: www.other.com"`,
in memory directly in front of the bytes `"Host: www.bbc.co.uk"`. -/
def overrunFrame : List Nat := httpHeaders ++ otherHost ++ blacklisted

/-- A port-80 frame whose payload is the blacklisted host line. -/
def bbcFrame : List Nat := httpHeaders ++ blacklisted

/-- A port-80 frame whose payload is `"Host: www.other.com"` and a zero byte. -/
def otherFrame : List Nat := httpHeaders ++ otherHost ++ [0]

/-- The number of bytes of the memory `hay` that `strstr(hay, needle)` may
examine.  The C standard hands `strstr` the whole zero-terminated string, and an
implementation may look at all of it whatever it finds (glibc measures the
haystack beyond the first occurrence before it compares), so the extent is the
string together with its terminator: every byte up to and including the first
zero byte. -/
def strstr_extent : List Nat → Nat
  | [] => 1
  | h :: hs => if h % 256 = 0 then 1 else strstr_extent hs + 1

/-- The offsets from `packet` that one call of `analyse` dereferences, in
program order (lines 67-222).  A bit-field read is the read of the byte that
holds it; the reads of `strstr` are the bytes of `strstr_extent`. -/
def analyse_reads (packet : List Nat) (verbose : Int) : List Nat :=
  let eth_type := ntohs (ether_type packet)
  let tcphdr := tcpOffset packet
  [12, 13]
  ++ (if verbose = 1 then List.range' 6 6 ++ List.range' 0 6 else [])
  ++ (if eth_type = 2054 then
        (if verbose = 1 then
          List.range' 22 6 ++ List.range' 32 6 ++ List.range' 28 4 ++ List.range' 38 4
            ++ [20, 21]
        else [])
        ++ [20, 21]
      else [])
  ++ (if eth_type = 2048 then
        List.range' 26 4 ++ List.range' 30 4
        ++ (if verbose = 1 then [14] else [])
        ++ [14]
        ++ (if verbose = 1 then
              [tcphdr, tcphdr + 1, tcphdr + 2, tcphdr + 3, tcphdr + 13, tcphdr + 13,
                tcphdr + 13, tcphdr + 12]
            else [])
        ++ [tcphdr + 13]
        ++ (if tcphdr_psh packet tcphdr = 1 then
              [tcphdr + 13] ++ (if tcphdr_urg packet tcphdr = 1 then [tcphdr + 13] else [])
            else [])
        ++ [tcphdr + 2, tcphdr + 3]
        ++ (if ntohs (tcphdr_dest packet tcphdr) = 80 then
              [tcphdr + 12]
              ++ List.range' (payloadOffset packet)
                  (strstr_extent (packet.drop (payloadOffset packet)))
            else [])
      else [])

/-- The null pointer.  A C pointer is an address on the heap, a `Nat`, and 0
is `NULL`. -/
def NULL : Nat := 0

/-- The `struct arg_struct` of `dispatch.c` (lines 29-32): two pointers. -/
structure arg_struct where
  hdr : Nat
  pkt : Nat
deriving DecidableEq, Repr

/-- The `struct element` of `dispatch.c` (lines 35-38). -/
structure element where
  next : Nat
  data : arg_struct
deriving DecidableEq, Repr

/-- The `struct linked_list` of `dispatch.c` (lines 41-43). -/
structure linked_list where
  head : Nat
deriving DecidableEq, Repr

/-- One allocated object of the heap. -/
inductive Cell where
  | list (l : linked_list)
  | elem (e : element)
  | hdr (h : pcap_pkthdr)
  | buf (bytes : List Nat)
deriving DecidableEq, Repr

/-- The heap: the objects allocated so far, the object at address `p` being
entry `p - 1`.  Nothing is ever freed in `dispatch.c`. -/
abbrev Heap := List Cell

/-- The object a pointer refers to; `none` for `NULL` and for an address that
was never handed out, whose dereference is undefined in C. -/
def Heap.load (h : Heap) (p : Nat) : Option Cell :=
  if p = NULL then none else h[p - 1]?

/-- The libc `malloc` together with the first contents of the block; it never
fails and returns an address no live object has. -/
def Heap.malloc (h : Heap) (c : Cell) : Nat × Heap := (h.length + 1, h ++ [c])

/-- An assignment through a pointer. -/
def Heap.store (h : Heap) (p : Nat) (c : Cell) : Heap :=
  if p = NULL then h else h.set (p - 1) c

/-- Dereference as a `struct linked_list *`. -/
def Heap.list (h : Heap) (p : Nat) : Option linked_list :=
  match h.load p with
  | some (Cell.list l) => some l
  | _ => none

/-- Dereference as a `struct element *`. -/
def Heap.elem (h : Heap) (p : Nat) : Option element :=
  match h.load p with
  | some (Cell.elem e) => some e
  | _ => none

/-- Dereference as a `struct pcap_pkthdr *`. -/
def Heap.hdr (h : Heap) (p : Nat) : Option pcap_pkthdr :=
  match h.load p with
  | some (Cell.hdr x) => some x
  | _ => none

/-- The bytes of the block an `unsigned char *` points to. -/
def Heap.buf (h : Heap) (p : Nat) : Option (List Nat) :=
  match h.load p with
  | some (Cell.buf b) => some b
  | _ => none

/-- The loop of `addData` (lines 55-58): from `currEle`, follow `next` until an
element whose `next` is `NULL`.  `none` when a pointer on the way is not a live
element, or when `fuel` steps do not reach the end (a cyclic list, on which the
C loop does not terminate). -/
def lastElement (h : Heap) : Nat → Nat → Option Nat
  | 0, _ => none
  | fuel + 1, currEle =>
    match h.elem currEle with
    | none => none
    | some e => if e.next = NULL then some currEle else lastElement h fuel e.next

/-- The function `addData` of `dispatch.c` (lines 46-62). -/
def addData (inQueue : Nat) (inData : arg_struct) (h : Heap) : Option Heap :=
  let m := h.malloc (Cell.elem { next := NULL, data := inData })
  let newData := m.1
  let h1 := m.2
  match h1.list inQueue with
  | none => none
  | some q =>
    if q.head = NULL then
      some (h1.store inQueue (Cell.list { head := newData }))
    else
      match lastElement h1 h1.length q.head with
      | none => none
      | some currEle =>
        match h1.elem currEle with
        | none => none
        | some e => some (h1.store currEle (Cell.elem { e with next := newData }))

/-- The function `removeHead` of `dispatch.c` (lines 66-70). -/
def removeHead (inQueue : Nat) (h : Heap) : Option (arg_struct × Heap) :=
  match h.list inQueue with
  | none => none
  | some q =>
    match h.elem q.head with
    | none => none
    | some e => some (e.data, h.store inQueue (Cell.list { head := e.next }))

/-- The globals of `dispatch.c` (lines 13-19) and the heap.  `threads` lists the
slots `j` for which `pthread_create` has been called. -/
structure Globals where
  i : Int
  verb : Int
  queue : Nat
  threads : List Nat
  heap : Heap
deriving DecidableEq, Repr

/-- The state at program start: `i = 0`, `verb = 0`, `queue = NULL`, no worker. -/
def Globals.init (heap : Heap) : Globals :=
  { i := 0, verb := 0, queue := NULL, threads := [], heap := heap }

/-- The function `initThreads` of `dispatch.c` (lines 97-103).  The block that
`malloc` returns is not written: its `head` is whatever `junk` the memory
holds. -/
def initThreads (junk : Nat) (s : Globals) : Globals :=
  let m := s.heap.malloc (Cell.list { head := junk })
  let s1 := { s with queue := m.1, heap := m.2 }
  (List.range 10).foldl (fun acc j => { acc with threads := acc.threads ++ [j] }) s1

/-- The guarded initialisation at the top of `dispatch` (lines 109-113).
`junk` is the stale content of the memory that `initThreads` obtains. -/
def dispatchInit (junk : Nat) (verbose : Int) (s : Globals) : Globals :=
  if s.i = 0 then
    let t := initThreads junk s
    { t with i := t.i + 1, verb := verbose }
  else s

/-- The copies and the enqueueing of `dispatch` (lines 115-125).  `none` when
`header` or `packet` is not a live object of its type or `packet` has fewer
than `caplen` bytes (the `memcpy` then reads outside the block), or when
`addData` fails. -/
def dispatchEnqueue (header packet : Nat) (s1 : Globals) : Option Globals :=
  match s1.heap.hdr header with
  | none => none
  | some hd =>
    let m := s1.heap.malloc (Cell.hdr hd)
    let header_cpy := m.1
    match m.2.buf packet with
    | none => none
    | some src =>
      if src.length < hd.caplen then none
      else
        let m2 := m.2.malloc (Cell.buf (src.take hd.caplen))
        let pkt_cpy := m2.1
        match addData s1.queue { hdr := header_cpy, pkt := pkt_cpy } m2.2 with
        | none => none
        | some h4 => some { s1 with heap := h4 }

/-- The function `dispatch` of `dispatch.c` (lines 106-126): the guarded
initialisation, then the copies and the enqueueing. -/
def dispatch (junk : Nat) (header packet : Nat) (verbose : Int) (s : Globals) :
    Option Globals :=
  dispatchEnqueue header packet (dispatchInit junk verbose s)

/-- The chain of elements reachable from `p`: address and payload of each, up
to the element whose `next` is `NULL`. -/
inductive IsList (h : Heap) : Nat → List (Nat × arg_struct) → Prop where
  | nil : IsList h NULL []
  | cons {p : Nat} {e : element} {rest : List (Nat × arg_struct)} :
      h.elem p = some e → IsList h e.next rest → IsList h p ((p, e.data) :: rest)

/-- The queue at `inQueue` holds the sequence `q`, head first. -/
def QueueHolds (h : Heap) (inQueue : Nat) (q : List arg_struct) : Prop :=
  ∃ l cells, h.list inQueue = some l ∧ IsList h l.head cells ∧ cells.map Prod.snd = q

/-- Calls of `addData`, one per item, in list order. -/
def addAll (inQueue : Nat) : List arg_struct → Heap → Option Heap
  | [], h => some h
  | x :: xs, h =>
    match addData inQueue x h with
    | none => none
    | some h1 => addAll inQueue xs h1

/-- `n` successive calls of `removeHead`, collecting the results in order. -/
def removeN (inQueue : Nat) : Nat → Heap → Option (List arg_struct × Heap)
  | 0, h => some ([], h)
  | n + 1, h =>
    match removeHead inQueue h with
    | none => none
    | some (x, h1) =>
      match removeN inQueue n h1 with
      | none => none
      | some (xs, h2) => some (x :: xs, h2)

/-- Successive calls of `dispatch`, one per `(header, packet, verbose)`. -/
def dispatchAll (junk : Nat) : List (Nat × Nat × Int) → Globals → Option Globals
  | [], s => some s
  | c :: cs, s =>
    match dispatch junk c.1 c.2.1 c.2.2 s with
    | none => none
    | some s1 => dispatchAll junk cs s1

/-- The arguments of a `dispatch` call are usable in heap `hp`: `header` points
to a capture header and `packet` to a block of at least `caplen` bytes. -/
def ValidCall (hp : Heap) (c : Nat × Nat × Int) : Prop :=
  ∃ hd src, hp.hdr c.1 = some hd ∧ hp.buf c.2.1 = some src ∧ hd.caplen ≤ src.length

/-- A heap with the caller's capture header at address 1 and the caller's
packet buffer, the 54-byte Xmas frame, at address 2. -/
def callerHeap : Heap := [Cell.hdr ⟨0, 0, 54, 54⟩, Cell.buf xmasFrame]

/-- A heap with an empty queue at address 1. -/
def emptyQueueHeap : Heap := [Cell.list { head := NULL }]

/-- A heap with a queue at address 1 that holds the single item `⟨7, 8⟩`. -/
def oneItemHeap : Heap :=
  [Cell.list { head := 2 }, Cell.elem { next := NULL, data := ⟨7, 8⟩ }]

/-- One counter across one call of `analyse`: at most one `++`.  The new value
is the old one or the old one plus 1 modulo 2^32; below the maximum that is the
old value or exactly one more, and never less. -/
def atMostOneIncrement (old new : Nat) : Prop :=
  (new = old ∨ new = (old + 1) % 2 ^ 32) ∧
  (old + 1 < 2 ^ 32 → (new = old ∨ new = old + 1) ∧ old ≤ new)

/-- A 42-byte Ethernet + ARP frame with operation code 1 (request) whose
bytes 34-35, inside the target hardware address, are `00 02`. -/
def arpRequestFrame2 : List Nat :=
  [0, 0, 0, 0, 0, 0, 0, 0, 0, 0, 0, 0, 0x08, 0x06,
   0, 1, 0x08, 0, 6, 4, 0, 1,
   1, 2, 3, 4, 5, 6, 10, 0, 0, 1, 0, 0, 0, 2, 0, 0, 10, 0, 0, 2]

/-- The Xmas frame with its IPv4 protocol byte, frame byte 23, changed from 6
(TCP) to 17 (UDP); every other byte is the same. -/
def udpFrame : List Nat := xmasFrame.set 23 17

/-- One pass through the loop body of `analysisthread` (lines 81-92), on the
globals of `dispatch.c` and the counters of `analysis.c`.  On an empty queue the
worker only sleeps.  Otherwise it takes the head and calls `analyse` on the
stored header and on the memory at the stored packet pointer: the bytes of that
block followed by `adjacent`, whatever lies behind the block. -/
def analysisthread_iteration (adjacent : List Nat) (s : Globals) (c : Counters) :
    Option (Globals × Counters) :=
  match s.heap.list s.queue with
  | none => none
  | some q =>
    if q.head = NULL then some (s, c)
    else
      match removeHead s.queue s.heap with
      | none => none
      | some (qHead, h1) =>
        match h1.hdr qHead.hdr with
        | none => none
        | some hd =>
          match h1.buf qHead.pkt with
          | none => none
          | some bytes =>
            some ({ s with heap := h1 }, analyse hd (bytes ++ adjacent) s.verb c)

/-- The two mutexes: `muxlock` of `dispatch.c` guards the queue, `muxlock2` of
`analysis.c` guards the counters. -/
inductive Mutex where
  | muxlock
  | muxlock2
deriving DecidableEq, Repr

/-- A call of `pthread_mutex_lock` or `pthread_mutex_unlock`. -/
inductive LockEvent where
  | lock (m : Mutex)
  | unlock (m : Mutex)
deriving DecidableEq, Repr

/-- Replay a sequence of lock calls of one operation, starting with `held` (the
mutex the operation holds, if any).  `none` when a mutex is locked while the
operation already holds one, or a mutex is unlocked that it does not hold;
otherwise the mutex held at the end. -/
def runLocks : Option Mutex → List LockEvent → Option (Option Mutex)
  | held, [] => some held
  | none, LockEvent.lock m :: es => runLocks (some m) es
  | some _, LockEvent.lock _ :: _ => none
  | some h, LockEvent.unlock m :: es => if h = m then runLocks none es else none
  | none, LockEvent.unlock _ :: _ => none

/-- The signal number `SIGINT` of `<signal.h>`. -/
def SIGINT : Int := 2

/-- A state after some submissions: ten workers, the queue at address 1 with
one item that points to the header copy at 3 and the packet copy at 4. -/
def workerState : Globals :=
  { i := 1, verb := 0, queue := 1, threads := List.range 10,
    heap := [Cell.list { head := 2 },
             Cell.elem { next := NULL, data := { hdr := 3, pkt := 4 } },
             Cell.hdr ⟨0, 0, 54, 54⟩, Cell.buf xmasFrame] }

/-- A state with ten workers and an empty queue at address 1. -/
def idleState : Globals :=
  { i := 1, verb := 0, queue := 1, threads := List.range 10, heap := emptyQueueHeap }

/-! ## Instrumented execution

The same functions once more, written as computations that record, in program
order, every dereference of the `packet` pointer and every call of
`pthread_mutex_lock` and `pthread_mutex_unlock`.  Their results are proved equal
to those of the functions above. -/

/-- Something an execution does that is visible from outside: it reads the byte
`k` bytes after `packet`, or it calls a mutex function. -/
inductive Event where
  | read (k : Nat)
  | sync (e : LockEvent)
deriving DecidableEq, Repr

/-- A result together with the events of the execution that produced it. -/
structure Traced (α : Type) where
  value : α
  events : List Event

instance : Monad Traced where
  pure a := { value := a, events := [] }
  bind m f := { value := (f m.value).value, events := m.events ++ (f m.value).events }

/-- The mutex calls, in order. -/
def lockCallsOf (events : List Event) : List LockEvent :=
  events.filterMap (fun e => match e with
    | Event.read _ => none
    | Event.sync l => some l)

/-- Read one `unsigned char`, or a bit-field stored in one byte. -/
def deref8 (packet : List Nat) (k : Nat) : Traced Nat :=
  { value := byteAt packet k, events := [Event.read k] }

/-- Read a 16-bit field. -/
def deref16 (packet : List Nat) (k : Nat) : Traced Nat :=
  { value := load16 packet k, events := [Event.read k, Event.read (k + 1)] }

/-- Read `n` bytes from offset `k` whose values only feed `printf` or are not
used: an address array, a 32-bit address. -/
def derefRange (k n : Nat) : Traced Unit :=
  { value := (), events := (List.range' k n).map Event.read }

/-- The libc `pthread_mutex_lock`. -/
def pthread_mutex_lock (m : Mutex) : Traced Unit :=
  { value := (), events := [Event.sync (LockEvent.lock m)] }

/-- The libc `pthread_mutex_unlock`. -/
def pthread_mutex_unlock (m : Mutex) : Traced Unit :=
  { value := (), events := [Event.sync (LockEvent.unlock m)] }

/-- The call `strstr(packet + payload, needle)`: its result, and the reads of
the string it is given. -/
def strstr_call (packet : List Nat) (payload : Nat) (needle : List Nat) :
    Traced (Option Nat) :=
  { value := strstr (packet.drop payload) needle,
    events := (List.range' payload (strstr_extent (packet.drop payload))).map Event.read }

/-- Lines 66-87 of `analyse`, instrumented: the Ethernet type and, in verbose
mode, the two MAC addresses. -/
def ethernet_traced (packet : List Nat) (verbose : Int) : Traced Nat := do
  let ether_type ← deref16 packet 12
  (if verbose = 1 then do
      derefRange 6 6
      derefRange 0 6
    else pure ())
  pure (ntohs ether_type)

/-- Lines 93-142 of `analyse`, instrumented: the ARP branch. -/
def arp_traced (packet : List Nat) (verbose : Int) (c : Counters) : Traced Counters := do
  pthread_mutex_lock Mutex.muxlock2
  let c1 := { c with cnt_pkts := incr c.cnt_pkts }
  pthread_mutex_unlock Mutex.muxlock2
  let arphdr := 14
  (if verbose = 1 then do
      derefRange (arphdr + 8) 6
      derefRange (arphdr + 18) 6
      derefRange (arphdr + 14) 4
      derefRange (arphdr + 24) 4
      let _ ← deref16 packet (arphdr + 6)
      pure ()
    else pure ())
  let arp_op ← deref16 packet (arphdr + 6)
  (if ntohs arp_op = 2 then do
      pthread_mutex_lock Mutex.muxlock2
      let c2 := { c1 with cnt_arppois := incr c1.cnt_arppois }
      pthread_mutex_unlock Mutex.muxlock2
      pure c2
    else pure c1)

/-- The condition of line 210, instrumented: `&&` evaluates `urg` only when
`psh` is 1, and `fin` only when `urg` is 1. -/
def xmas_test_traced (packet : List Nat) (networkpayload : Nat) : Traced Bool := do
  let psh ← deref8 packet (networkpayload + 13)
  (if psh / 8 % 2 = 1 then do
      let urg ← deref8 packet (networkpayload + 13)
      (if urg / 32 % 2 = 1 then do
          let fin ← deref8 packet (networkpayload + 13)
          pure (decide (fin % 2 = 1))
        else pure false)
    else pure false)

/-- Lines 220-227 of `analyse`, instrumented: the blacklist rule. -/
def blacklist_traced (packet : List Nat) (networkpayload : Nat) (c : Counters) :
    Traced Counters := do
  let dest ← deref16 packet (networkpayload + 2)
  (if ntohs dest = 80 then do
      let doff ← deref8 packet (networkpayload + 12)
      let payload := networkpayload + 4 * (doff / 16)
      let found ← strstr_call packet payload blacklisted
      (if found.isSome = true then do
          pthread_mutex_lock Mutex.muxlock2
          let c1 := { c with cnt_blacklisturl := incr c.cnt_blacklisturl }
          pthread_mutex_unlock Mutex.muxlock2
          pure c1
        else pure c)
    else pure c)

/-- Lines 148-227 of `analyse`, instrumented: the IPv4 branch. -/
def ipv4_traced (packet : List Nat) (verbose : Int) (c : Counters) : Traced Counters := do
  pthread_mutex_lock Mutex.muxlock2
  let c1 := { c with cnt_pkts := incr c.cnt_pkts }
  pthread_mutex_unlock Mutex.muxlock2
  let iphdr := ETH_HLEN
  derefRange (iphdr + 12) 4
  derefRange (iphdr + 16) 4
  (if verbose = 1 then do
      let _ ← deref8 packet iphdr
      pure ()
    else pure ())
  let ihl ← deref8 packet iphdr
  let networkpayload := ETH_HLEN + 4 * (ihl % 16)
  (if verbose = 1 then do
      let _ ← deref16 packet networkpayload
      let _ ← deref16 packet (networkpayload + 2)
      let _ ← deref8 packet (networkpayload + 13)
      let _ ← deref8 packet (networkpayload + 13)
      let _ ← deref8 packet (networkpayload + 13)
      let _ ← deref8 packet (networkpayload + 12)
      pure ()
    else pure ())
  let xmas ← xmas_test_traced packet networkpayload
  let c2 ←
    (if xmas = true then do
        pthread_mutex_lock Mutex.muxlock2
        let c' := { c1 with cnt_xmasscan := incr c1.cnt_xmasscan }
        pthread_mutex_unlock Mutex.muxlock2
        pure c'
      else pure c1)
  blacklist_traced packet networkpayload c2

/-- The function `analyse` of `analysis.c` (lines 38-229), instrumented: the
Ethernet header, then the ARP branch, then the IPv4 branch. -/
def analyse_traced (packet : List Nat) (verbose : Int) (c : Counters) : Traced Counters := do
  let eth_type ← ethernet_traced packet verbose
  let c1 ← (if eth_type = 2054 then arp_traced packet verbose c else pure c)
  (if eth_type = 2048 then ipv4_traced packet verbose c1 else pure c1)


/-- The function `sig_handler` of `analysis.c` (lines 25-36), instrumented.  On
`SIGINT` it locks `muxlock2`, prints the four counters, unlocks and exits: the
value is the report printed.  On any other signal it returns at once. -/
def sig_handler (signo : Int) (c : Counters) : Traced (Option Counters) :=
  (if signo = SIGINT then do
      pthread_mutex_lock Mutex.muxlock2
      let report := c
      pthread_mutex_unlock Mutex.muxlock2
      pure (some report)
    else pure none)

/-- The function `addData` of `dispatch.c` (lines 46-62), instrumented.  An
execution that dereferences a pointer to no live object, or never leaves the
loop, does not reach the unlock of line 61. -/
def addData_traced (inQueue : Nat) (inData : arg_struct) (h : Heap) :
    Traced (Option Heap) := do
  let m := h.malloc (Cell.elem { next := NULL, data := inData })
  let newData := m.1
  let h1 := m.2
  pthread_mutex_lock Mutex.muxlock
  match h1.list inQueue with
  | none => pure none
  | some q =>
    (if q.head = NULL then do
        let h2 := h1.store inQueue (Cell.list { head := newData })
        pthread_mutex_unlock Mutex.muxlock
        pure (some h2)
      else
        match lastElement h1 h1.length q.head with
        | none => pure none
        | some currEle =>
          match h1.elem currEle with
          | none => pure none
          | some e => do
            let h2 := h1.store currEle (Cell.elem { e with next := newData })
            pthread_mutex_unlock Mutex.muxlock
            pure (some h2))

/-- The function `dispatch` of `dispatch.c` (lines 106-126), instrumented:
`initThreads` and the copies call no mutex function, `addData` does. -/
def dispatch_traced (junk : Nat) (header packet : Nat) (verbose : Int) (s : Globals) :
    Traced (Option Globals) := do
  let s1 := dispatchInit junk verbose s
  match s1.heap.hdr header with
  | none => pure none
  | some hd =>
    let m := s1.heap.malloc (Cell.hdr hd)
    let header_cpy := m.1
    match m.2.buf packet with
    | none => pure none
    | some src =>
      (if src.length < hd.caplen then pure none
        else do
          let m2 := m.2.malloc (Cell.buf (src.take hd.caplen))
          let pkt_cpy := m2.1
          let r ← addData_traced s1.queue { hdr := header_cpy, pkt := pkt_cpy } m2.2
          match r with
          | none => pure none
          | some h4 => pure (some { s1 with heap := h4 }))

/-- One pass through the loop body of `analysisthread` (lines 81-92),
instrumented: the lock of line 81, the unlock of line 83 or 89, and the events
of the call of `analyse`. -/
def analysisthread_traced (adjacent : List Nat) (s : Globals) (c : Counters) :
    Traced (Option (Globals × Counters)) := do
  pthread_mutex_lock Mutex.muxlock
  match s.heap.list s.queue with
  | none => pure none
  | some q =>
    (if q.head = NULL then do
        pthread_mutex_unlock Mutex.muxlock
        pure (some (s, c))
      else
        match removeHead s.queue s.heap with
        | none => pure none
        | some (qHead, h1) => do
          pthread_mutex_unlock Mutex.muxlock
          match h1.hdr qHead.hdr with
          | none => pure none
          | some _ =>
            match h1.buf qHead.pkt with
            | none => pure none
            | some bytes => do
              let c1 ← analyse_traced (bytes ++ adjacent) s.verb c
              pure (some ({ s with heap := h1 }, c1)))

/-- The mutexes a thread holds after a sequence of lock calls, the last one
taken first. -/
def heldAfter (calls : List LockEvent) : List Mutex :=
  calls.foldl (fun held e => match e with
    | LockEvent.lock m => m :: held
    | LockEvent.unlock m => held.erase m) []

/-- The events of a thread on which a signal handler starts after the first `n`
events of the operation `op`.  The handler runs on top of the interrupted
operation, which does not continue before the handler returns. -/
def interruptedAfter (n : Nat) (op handler : List Event) : List Event :=
  op.take n ++ handler

/-! ## Two first calls of `dispatch` at the same time -/

/-- Lines 110-112 of `dispatch`: the body of the guarded initialisation. -/
def firstCallBody (junk : Nat) (verbose : Int) (s : Globals) : Globals :=
  let t := initThreads junk s
  { t with i := t.i + 1, verb := verbose }

/-- The function `dispatch` from line 110 on, for a caller whose test `i == 0`
of line 109 has come out as `guard`. -/
def dispatchAfterGuard (guard : Bool) (junk : Nat) (header packet : Nat) (verbose : Int)
    (s : Globals) : Option Globals :=
  dispatchEnqueue header packet (if guard = true then firstCallBody junk verbose s else s)

/-- Two calls of `dispatch` on two threads, interleaved so that both evaluate
the test of line 109, which no lock protects, before either runs line 111; then
call `a` runs to its end, then call `b`. -/
def racingFirstCalls (junk : Nat) (a b : Nat × Nat × Int) (s : Globals) : Option Globals :=
  let guardA := decide (s.i = 0)
  let guardB := decide (s.i = 0)
  match dispatchAfterGuard guardA junk a.1 a.2.1 a.2.2 s with
  | none => none
  | some s1 => dispatchAfterGuard guardB junk b.1 b.2.1 b.2.2 s1

/-- `n` passes of workers through the loop body of `analysisthread`, one after
the other as `muxlock` serialises them. -/
def workerPasses (adjacent : List Nat) : Nat → Globals → Counters →
    Option (Globals × Counters)
  | 0, s, c => some (s, c)
  | n + 1, s, c =>
    match analysisthread_iteration adjacent s c with
    | none => none
    | some (s1, c1) => workerPasses adjacent n s1 c1

/-- The caller's memory for two submissions: the capture header and the bytes of
an ARP reply at addresses 1 and 2, those of the Xmas frame at 3 and 4. -/
def twoFrameHeap : Heap :=
  [Cell.hdr ⟨0, 0, 42, 42⟩, Cell.buf arpReplyFrame, Cell.hdr ⟨0, 0, 54, 54⟩, Cell.buf xmasFrame]

/-- An execution that starts with no lock held keeps the lock discipline: it
never locks a mutex while it holds one, and when the operation returns (its
value is `some`), it holds none at the end. -/
def LockDisciplined {α : Type} (t : Traced (Option α)) : Prop :=
  (runLocks none (lockCallsOf t.events)).isSome = true ∧
  (t.value.isSome = true → runLocks none (lockCallsOf t.events) = some none)

/-! ## Theorems: basic facts about the field readers -/

theorem byteAt_lt (packet : List Nat) (k : Nat) : byteAt packet k < 256 :=
  Nat.mod_lt _ (by decide)

/-- On the wire the two bytes of a 16-bit field are big-endian: `ntohs` of the
host load is `256 * first + second`. -/
theorem ntohs_load16 (packet : List Nat) (k : Nat) :
    ntohs (load16 packet k) = byteAt packet k * 256 + byteAt packet (k + 1) := by
  have h0 := byteAt_lt packet k
  have h1 := byteAt_lt packet (k + 1)
  unfold ntohs load16
  omega

theorem incr_of_lt {n : Nat} (h : n + 1 < 2 ^ 32) : incr n = n + 1 :=
  Nat.mod_eq_of_lt h

theorem testBit_zero_iff (b : Nat) : b.testBit 0 = true ↔ b % 2 = 1 := by
  rw [Nat.testBit_to_div_mod]; simp

theorem testBit_three_iff (b : Nat) : b.testBit 3 = true ↔ b / 8 % 2 = 1 := by
  rw [Nat.testBit_to_div_mod]; simp

theorem testBit_five_iff (b : Nat) : b.testBit 5 = true ↔ b / 32 % 2 = 1 := by
  rw [Nat.testBit_to_div_mod]; simp

/-- The whole effect of `analyse`, counter by counter. -/
theorem analyse_eq (header : pcap_pkthdr) (packet : List Nat) (verbose : Int)
    (c : Counters) :
    analyse header packet verbose c =
      if ntohs (ether_type packet) = 2054 then
        { cnt_xmasscan := c.cnt_xmasscan
          cnt_arppois := if ntohs (arp_op packet 14) = 2 then incr c.cnt_arppois
                         else c.cnt_arppois
          cnt_blacklisturl := c.cnt_blacklisturl
          cnt_pkts := incr c.cnt_pkts }
      else if ntohs (ether_type packet) = 2048 then
        { cnt_xmasscan := if xmasFlags packet then incr c.cnt_xmasscan else c.cnt_xmasscan
          cnt_arppois := c.cnt_arppois
          cnt_blacklisturl := if blacklistHit packet then incr c.cnt_blacklisturl
                              else c.cnt_blacklisturl
          cnt_pkts := incr c.cnt_pkts }
      else c := by
  unfold analyse xmasFlags blacklistHit payloadOffset tcpOffset
  by_cases h1 : ntohs (ether_type packet) = 2054
  · by_cases h3 : ntohs (arp_op packet 14) = 2 <;> simp [h1, h3]
  · by_cases h2 : ntohs (ether_type packet) = 2048
    · simp only [h2, if_true]
      split_ifs <;> simp_all
    · simp [h1, h2]

/-- The effect of `analyse` on a frame whose type is neither ARP nor IPv4. -/
theorem analyse_other (header : pcap_pkthdr) (packet : List Nat) (verbose : Int)
    (c : Counters) (h1 : ntohs (ether_type packet) ≠ 2054)
    (h2 : ntohs (ether_type packet) ≠ 2048) :
    analyse header packet verbose c = c := by
  simp [analyse_eq, h1, h2]

/-- The effect of `analyse` on the packet total, by Ethernet type. -/
theorem analyse_cnt_pkts (header : pcap_pkthdr) (packet : List Nat) (verbose : Int)
    (c : Counters) :
    (analyse header packet verbose c).cnt_pkts =
      if ntohs (ether_type packet) = 2054 ∨ ntohs (ether_type packet) = 2048
      then incr c.cnt_pkts else c.cnt_pkts := by
  rw [analyse_eq]
  by_cases h1 : ntohs (ether_type packet) = 2054
  · simp [h1]
  · by_cases h2 : ntohs (ether_type packet) = 2048 <;> simp [h1, h2]

/-- Nothing in `analyse` depends on the capture header. -/
theorem analyse_header_irrelevant (header header' : pcap_pkthdr) (packet : List Nat)
    (verbose verbose' : Int) (c : Counters) :
    analyse header packet verbose c = analyse header' packet verbose' c := rfl

/-- The Ethernet type that `analyse` compares is the big-endian value of
frame bytes 12-13. -/
theorem eth_type_eq (packet : List Nat) :
    ntohs (ether_type packet) = byteAt packet 12 * 256 + byteAt packet 13 :=
  ntohs_load16 packet 12

/-- The counter total after a run of frames, from any start, modulo 2^32. -/
theorem analyse_frames_cnt_pkts (verbose : Int) (frames : List Frame) (c : Counters) :
    (analyse_frames verbose frames c).cnt_pkts % 2 ^ 32 =
      (c.cnt_pkts + frames.countP (fun f => recognisedType f.packet)) % 2 ^ 32 := by
  induction frames generalizing c with
  | nil => simp [analyse_frames]
  | cons f fs ih =>
    have step : analyse_frames verbose (f :: fs) c =
        analyse_frames verbose fs (analyse f.header f.packet verbose c) := rfl
    rw [step, ih, analyse_cnt_pkts, eth_type_eq, List.countP_cons]
    by_cases h : recognisedType f.packet = true
    · have h' := h
      simp only [recognisedType, decide_eq_true_eq] at h'
      simp only [h, if_true, h', incr]
      omega
    · have h' := h
      simp only [recognisedType, decide_eq_true_eq] at h'
      simp only [h, h', if_false]
      simp

/-! ## The string search -/

theorem cstring_nil : cstring [] = [] := rfl

theorem cstring_cons (h : Nat) (hs : List Nat) :
    cstring (h :: hs) = if h % 256 = 0 then [] else h % 256 :: cstring hs := by
  unfold cstring
  by_cases hz : h % 256 = 0 <;> simp [List.takeWhile_cons, hz]

/-- The comparison at one position succeeds exactly when `needle` is a prefix
of the zero-terminated string found there. -/
theorem matchAt_iff (needle : List Nat) (hnz : ∀ n ∈ needle, n ≠ 0) (hay : List Nat) :
    matchAt hay needle = true ↔ needle <+: cstring hay := by
  induction needle generalizing hay with
  | nil => simp [matchAt]
  | cons n ns ih =>
    have hn : n ≠ 0 := hnz n (List.mem_cons_self _ _)
    have hns : ∀ m ∈ ns, m ≠ 0 := fun m hm => hnz m (List.mem_cons_of_mem _ hm)
    cases hay with
    | nil => simp [matchAt, cstring_nil]
    | cons h hs =>
      rw [cstring_cons]
      by_cases hz : h % 256 = 0
      · have hne : ¬ (0 = n) := fun e => hn e.symm
        simp [matchAt, hz, hne]
      · simp only [matchAt, Bool.and_eq_true, beq_iff_eq, hz, if_false,
          List.cons_prefix_cons, ih hns hs]
        constructor
        · rintro ⟨h1, h2⟩; exact ⟨h1.symm, h2⟩
        · rintro ⟨h1, h2⟩; exact ⟨h1.symm, h2⟩

/-- The libc contract of `strstr`: the result is not `NULL` exactly when
`needle` occurs in the zero-terminated string at `hay`. -/
theorem strstr_isSome_iff (needle : List Nat) (hne : needle ≠ [])
    (hnz : ∀ n ∈ needle, n ≠ 0) (hay : List Nat) :
    (strstr hay needle).isSome = true ↔ needle <:+: cstring hay := by
  induction hay with
  | nil => simp [strstr, cstring_nil, hne]
  | cons h hs ih =>
    have hm := matchAt_iff needle hnz (h :: hs)
    rw [cstring_cons] at hm ⊢
    unfold strstr
    by_cases hz : h % 256 = 0
    · simp only [hz, if_true] at hm ⊢
      have hfalse : matchAt (h :: hs) needle = false := by
        cases hmm : matchAt (h :: hs) needle with
        | false => rfl
        | true => exact absurd (List.prefix_nil.1 (hm.1 hmm)) hne
      simp [hfalse, hne]
    · simp only [hz, if_false] at hm ⊢
      rw [List.infix_cons_iff, ← hm, ← ih]
      cases hmm : matchAt (h :: hs) needle <;> simp

theorem blacklisted_ne_nil : blacklisted ≠ [] := by decide

theorem blacklisted_nonzero : ∀ n ∈ blacklisted, n ≠ 0 := by decide

theorem blacklisted_lt : ∀ n ∈ blacklisted, n < 256 := by decide

/-- The test `strstr(payload, "Host: www.bbc.co.uk") != NULL` of line 222. -/
theorem strstr_blacklisted_iff (hay : List Nat) :
    (strstr hay blacklisted).isSome = true ↔ blacklisted <:+: cstring hay :=
  strstr_isSome_iff blacklisted blacklisted_ne_nil blacklisted_nonzero hay

/-- The effect of `analyse` on the blacklist counter of an IPv4 frame. -/
theorem analyse_cnt_blacklisturl (header : pcap_pkthdr) (packet : List Nat)
    (verbose : Int) (c : Counters) (htype : ntohs (ether_type packet) = 2048) :
    (analyse header packet verbose c).cnt_blacklisturl =
      if ntohs (tcphdr_dest packet (tcpOffset packet)) = 80 ∧
          blacklisted <:+: cstring (packet.drop (payloadOffset packet))
      then incr c.cnt_blacklisturl else c.cnt_blacklisturl := by
  rw [analyse_eq, htype]
  simp only [blacklistHit, strstr_blacklisted_iff]
  simp

theorem cstring_of_bytes (l : List Nat) (hl : ∀ b ∈ l, b < 256) :
    cstring l = l.takeWhile (fun b => b != 0) := by
  unfold cstring
  have : l.map (· % 256) = l := by
    conv_rhs => rw [← List.map_id l]
    exact List.map_congr_left (fun b hb => Nat.mod_eq_of_lt (hl b hb))
  rw [this]

theorem takeWhile_append_of_stop {α : Type} (p : α → Bool) (l₁ l₂ : List α)
    (h : ∃ x ∈ l₁, p x = false) :
    (l₁ ++ l₂).takeWhile p = l₁.takeWhile p := by
  induction l₁ with
  | nil => simp at h
  | cons a l ih =>
    simp only [List.cons_append, List.takeWhile_cons]
    by_cases ha : p a = true
    · simp only [ha, if_true]
      obtain ⟨x, hx, hpx⟩ := h
      rcases List.mem_cons.1 hx with rfl | hx'
      · simp [ha] at hpx
      · rw [ih ⟨x, hx', hpx⟩]
    · simp [ha]

/-- The captured payload is a prefix of the memory that `strstr` scans. -/
theorem capturedPayload_prefix (header : pcap_pkthdr) (packet : List Nat) :
    capturedPayload header packet <+: packet.drop (payloadOffset packet) := by
  unfold capturedPayload
  rw [List.drop_take]
  exact List.take_prefix _ _

/-! ## The bytes that `analyse` reads -/

theorem matchAt_append (hay rest needle : List Nat) (h : matchAt hay needle = true) :
    matchAt (hay ++ rest) needle = true := by
  induction needle generalizing hay with
  | nil => simp [matchAt]
  | cons n ns ih =>
    cases hay with
    | nil => simp [matchAt] at h
    | cons a as =>
      simp only [matchAt, Bool.and_eq_true, List.cons_append] at h ⊢
      exact ⟨h.1, ih as h.2⟩

theorem matchAt_self_append (needle rest : List Nat) (hlt : ∀ n ∈ needle, n < 256) :
    matchAt (needle ++ rest) needle = true := by
  induction needle with
  | nil => simp [matchAt]
  | cons n ns ih =>
    have hn : n % 256 = n := Nat.mod_eq_of_lt (hlt n (List.mem_cons_self _ _))
    simp only [List.cons_append, matchAt, Bool.and_eq_true, beq_iff_eq]
    exact ⟨hn, ih (fun m hm => hlt m (List.mem_cons_of_mem _ hm))⟩

theorem strstr_extent_pos (hay : List Nat) : 1 ≤ strstr_extent hay := by
  cases hay with
  | nil => simp [strstr_extent]
  | cons a as =>
    simp only [strstr_extent]
    split <;> omega

/-- Each counter is incremented under a condition on the packet alone. -/
theorem analyse_fields (header : pcap_pkthdr) (packet : List Nat) (verbose : Int)
    (c : Counters) :
    analyse header packet verbose c =
      { cnt_xmasscan :=
          if ntohs (ether_type packet) = 2048 ∧ xmasFlags packet
          then incr c.cnt_xmasscan else c.cnt_xmasscan
        cnt_arppois :=
          if ntohs (ether_type packet) = 2054 ∧ ntohs (arp_op packet 14) = 2
          then incr c.cnt_arppois else c.cnt_arppois
        cnt_blacklisturl :=
          if ntohs (ether_type packet) = 2048 ∧ blacklistHit packet
          then incr c.cnt_blacklisturl else c.cnt_blacklisturl
        cnt_pkts :=
          if ntohs (ether_type packet) = 2054 ∨ ntohs (ether_type packet) = 2048
          then incr c.cnt_pkts else c.cnt_pkts } := by
  rw [analyse_eq]
  by_cases h1 : ntohs (ether_type packet) = 2054
  · simp [h1]
  · by_cases h2 : ntohs (ether_type packet) = 2048
    · simp [h1, h2]
    · simp [h1, h2]

/-- The test of line 210 in terms of the bits of byte 13 of the TCP header. -/
theorem xmasFlags_iff (packet : List Nat) :
    xmasFlags packet ↔
      (byteAt packet (14 + 4 * (byteAt packet 14 % 16) + 13)).testBit 5 = true ∧
      (byteAt packet (14 + 4 * (byteAt packet 14 % 16) + 13)).testBit 3 = true ∧
      (byteAt packet (14 + 4 * (byteAt packet 14 % 16) + 13)).testBit 0 = true := by
  unfold xmasFlags tcphdr_psh tcphdr_urg tcphdr_fin tcpOffset iphdr_ihl ETH_HLEN
  rw [testBit_five_iff, testBit_three_iff, testBit_zero_iff]
  tauto

/-- Two calls of `analyse` commute. -/
theorem analyse_comm (ha hb : pcap_pkthdr) (a b : List Nat) (va vb : Int)
    (c : Counters) :
    analyse ha a va (analyse hb b vb c) = analyse hb b vb (analyse ha a va c) := by
  have key : ∀ (p q : Prop) [Decidable p] [Decidable q] (n : Nat),
      (if p then incr (if q then incr n else n) else (if q then incr n else n)) =
      (if q then incr (if p then incr n else n) else (if p then incr n else n)) := by
    intro p q _ _ n
    by_cases hp : p <;> by_cases hq : q <;> simp [hp, hq]
  rw [analyse_fields ha a va, analyse_fields hb b vb, analyse_fields hb b vb,
    analyse_fields ha a va]
  simp only [key]

theorem atMostOneIncrement_same (n : Nat) : atMostOneIncrement n n :=
  ⟨Or.inl rfl, fun _ => ⟨Or.inl rfl, le_refl n⟩⟩

theorem atMostOneIncrement_incr (n : Nat) : atMostOneIncrement n (incr n) := by
  refine ⟨Or.inr rfl, fun h => ?_⟩
  rw [incr_of_lt h]
  exact ⟨Or.inr rfl, Nat.le_succ n⟩

theorem atMostOneIncrement_ite (p : Prop) [Decidable p] (n : Nat) :
    atMostOneIncrement n (if p then incr n else n) := by
  split
  · exact atMostOneIncrement_incr n
  · exact atMostOneIncrement_same n

/-- A byte of the frame is the same in two memories that agree at its offset. -/
theorem byteAt_congr {p q : List Nat} {k : Nat} (h : p[k]? = q[k]?) :
    byteAt p k = byteAt q k := by
  unfold byteAt
  rw [List.getD_eq_getElem?_getD, List.getD_eq_getElem?_getD, h]

/-- Two memories that agree from offset `n` on have the same tail there. -/
theorem drop_congr {p q : List Nat} {n : Nat} (h : ∀ k, n ≤ k → p[k]? = q[k]?) :
    p.drop n = q.drop n := by
  apply List.ext_getElem?
  intro j
  rw [List.getElem?_drop, List.getElem?_drop]
  exact h (n + j) (Nat.le_add_right n j)

/-- The operation code that `analyse` tests is the big-endian value of frame
bytes 20-21. -/
theorem arp_op_eq (packet : List Nat) :
    ntohs (arp_op packet 14) = byteAt packet 20 * 256 + byteAt packet 21 :=
  ntohs_load16 packet 20

/-- The destination port that `analyse` tests is the big-endian value of bytes
2-3 of the TCP header. -/
theorem tcp_dest_eq (packet : List Nat) :
    ntohs (tcphdr_dest packet (tcpOffset packet)) =
      byteAt packet (tcpOffset packet + 2) * 256 + byteAt packet (tcpOffset packet + 3) :=
  ntohs_load16 packet (tcpOffset packet + 2)

/-- With IHL at least 5, nothing that `analyse` looks at lies at frame byte
23: two memories that agree everywhere else are treated alike. -/
theorem analyse_congr_except_23 (h h' : pcap_pkthdr) (p q : List Nat)
    (verbose verbose' : Int) (c : Counters)
    (hihl : 5 ≤ byteAt p 14 % 16) (hsame : ∀ k, k ≠ 23 → p[k]? = q[k]?) :
    analyse h p verbose c = analyse h' q verbose' c := by
  have hb : ∀ k, k ≠ 23 → byteAt q k = byteAt p k :=
    fun k hk => (byteAt_congr (hsame k hk)).symm
  have hT : tcpOffset q = tcpOffset p := by
    unfold tcpOffset iphdr_ihl ETH_HLEN
    rw [hb 14 (by decide)]
  have hTge : 34 ≤ tcpOffset p := by
    unfold tcpOffset iphdr_ihl ETH_HLEN
    omega
  have htype : ntohs (ether_type q) = ntohs (ether_type p) := by
    rw [eth_type_eq, eth_type_eq, hb 12 (by decide), hb 13 (by decide)]
  have harp : ntohs (arp_op q 14) = ntohs (arp_op p 14) := by
    rw [arp_op_eq, arp_op_eq, hb 20 (by decide), hb 21 (by decide)]
  have hx : xmasFlags q ↔ xmasFlags p := by
    unfold xmasFlags tcphdr_psh tcphdr_urg tcphdr_fin
    rw [hT, hb (tcpOffset p + 13) (by omega)]
  have hP : payloadOffset q = payloadOffset p := by
    unfold payloadOffset tcphdr_doff
    rw [hT, hb (tcpOffset p + 12) (by omega)]
  have hPge : 34 ≤ payloadOffset p := by
    unfold payloadOffset
    omega
  have hd : q.drop (payloadOffset q) = p.drop (payloadOffset p) := by
    rw [hP]
    exact (drop_congr (fun k hk => hsame k (by omega))).symm
  have hbl : blacklistHit q ↔ blacklistHit p := by
    unfold blacklistHit
    rw [hd, tcp_dest_eq, tcp_dest_eq, hT, hb (tcpOffset p + 2) (by omega),
      hb (tcpOffset p + 3) (by omega)]
  rw [analyse_fields h p, analyse_fields h' q, htype, harp]
  simp only [hx, hbl]

/-! ## The heap -/

theorem load_eq (hp : Heap) (p : Nat) :
    hp.load p = if p = 0 then none else hp[p - 1]? := rfl

theorem load_le {hp : Heap} {p : Nat} {c : Cell} (hl : hp.load p = some c) :
    1 ≤ p ∧ p ≤ hp.length := by
  rw [load_eq] at hl
  by_cases h0 : p = 0
  · simp [h0] at hl
  · simp only [h0, if_false] at hl
    obtain ⟨hlt, _⟩ := List.getElem?_eq_some_iff.1 hl
    omega

theorem load_malloc_old {hp : Heap} {p : Nat} {c : Cell} (c' : Cell)
    (hl : hp.load p = some c) : (hp.malloc c').2.load p = some c := by
  have hb := load_le hl
  rw [load_eq] at hl ⊢
  have h0 : p ≠ 0 := by omega
  simp only [h0, if_false, Heap.malloc] at hl ⊢
  rw [List.getElem?_append_left (by omega)]
  exact hl

theorem load_malloc_new (hp : Heap) (c : Cell) :
    (hp.malloc c).2.load (hp.malloc c).1 = some c := by
  rw [load_eq]
  simp [Heap.malloc]

theorem load_malloc_ne {hp : Heap} {p : Nat} (c' : Cell) (hne : p ≠ hp.length + 1) :
    (hp.malloc c').2.load p = hp.load p := by
  rw [load_eq, load_eq]
  by_cases h0 : p = 0
  · simp [h0]
  · simp only [h0, if_false, Heap.malloc]
    by_cases hlt : p - 1 < hp.length
    · rw [List.getElem?_append_left hlt]
    · rw [List.getElem?_eq_none (by simp; omega), List.getElem?_eq_none (by omega)]

theorem load_store_same {hp : Heap} {p : Nat} {c0 : Cell} (c : Cell)
    (hl : hp.load p = some c0) : (hp.store p c).load p = some c := by
  have hb := load_le hl
  have h0 : p ≠ 0 := by omega
  rw [load_eq]
  simp only [Heap.store, NULL, h0, if_false]
  rw [List.getElem?_set_self (by omega)]

theorem load_store_ne (hp : Heap) {p p' : Nat} (c : Cell) (hne : p' ≠ p) :
    (hp.store p c).load p' = hp.load p' := by
  rw [load_eq, load_eq]
  by_cases h0 : p = 0
  · simp [Heap.store, NULL, h0]
  · by_cases h0' : p' = 0
    · simp [h0']
    · simp only [Heap.store, NULL, h0, h0', if_false]
      rw [List.getElem?_set_ne (by omega)]

theorem length_store (hp : Heap) (p : Nat) (c : Cell) :
    (hp.store p c).length = hp.length := by
  unfold Heap.store
  split <;> simp

theorem length_malloc (hp : Heap) (c : Cell) : (hp.malloc c).2.length = hp.length + 1 := by
  simp [Heap.malloc]

theorem malloc_fst (hp : Heap) (c : Cell) : (hp.malloc c).1 = hp.length + 1 := rfl

theorem elem_iff (hp : Heap) (p : Nat) (e : element) :
    hp.elem p = some e ↔ hp.load p = some (Cell.elem e) := by
  unfold Heap.elem
  split
  · next e' heq => simp [heq]
  · next hne =>
    constructor
    · intro hc; simp at hc
    · intro hc; exact absurd hc (hne e)

theorem list_iff (hp : Heap) (p : Nat) (l : linked_list) :
    hp.list p = some l ↔ hp.load p = some (Cell.list l) := by
  unfold Heap.list
  split
  · next l' heq => simp [heq]
  · next hne =>
    constructor
    · intro hc; simp at hc
    · intro hc; exact absurd hc (hne l)

theorem hdr_iff (hp : Heap) (p : Nat) (x : pcap_pkthdr) :
    hp.hdr p = some x ↔ hp.load p = some (Cell.hdr x) := by
  unfold Heap.hdr
  split
  · next x' heq => simp [heq]
  · next hne =>
    constructor
    · intro hc; simp at hc
    · intro hc; exact absurd hc (hne x)

theorem buf_iff (hp : Heap) (p : Nat) (b : List Nat) :
    hp.buf p = some b ↔ hp.load p = some (Cell.buf b) := by
  unfold Heap.buf
  split
  · next b' heq => simp [heq]
  · next hne =>
    constructor
    · intro hc; simp at hc
    · intro hc; exact absurd hc (hne b)

theorem elem_null (hp : Heap) : hp.elem NULL = none := by
  cases h : hp.elem NULL with
  | none => rfl
  | some e =>
    have := load_le ((elem_iff _ _ _).1 h)
    simp [NULL] at this

/-! ## The linked list -/

theorem IsList.inv {hp : Heap} {p : Nat} {l : List (Nat × arg_struct)}
    (h : IsList hp p l) :
    (p = NULL ∧ l = []) ∨
    ∃ e rest, hp.elem p = some e ∧ IsList hp e.next rest ∧ l = (p, e.data) :: rest := by
  cases h with
  | nil => exact Or.inl ⟨rfl, rfl⟩
  | cons he hr => exact Or.inr ⟨_, _, he, hr, rfl⟩

theorem IsList.of_null {hp : Heap} {l : List (Nat × arg_struct)}
    (h : IsList hp NULL l) : l = [] := by
  rcases h.inv with ⟨_, hl⟩ | ⟨e, rest, he, _, _⟩
  · exact hl
  · rw [elem_null] at he; simp at he

theorem IsList.null_of_nil {hp : Heap} {p : Nat} (h : IsList hp p []) : p = NULL := by
  rcases h.inv with ⟨hp0, _⟩ | ⟨e, rest, _, _, hl⟩
  · exact hp0
  · simp at hl

/-- The chain from a pointer is determined by the heap. -/
theorem IsList.functional {hp : Heap} {p : Nat} {l₁ l₂ : List (Nat × arg_struct)}
    (h₁ : IsList hp p l₁) (h₂ : IsList hp p l₂) : l₁ = l₂ := by
  induction h₁ generalizing l₂ with
  | nil => exact h₂.of_null.symm
  | cons he _ ih =>
    rcases h₂.inv with ⟨hp0, _⟩ | ⟨e', rest', he', hr', hl⟩
    · rw [hp0, elem_null] at he; simp at he
    · rw [he] at he'
      cases he'
      rw [hl, ih hr']

theorem IsList.live {hp : Heap} {p : Nat} {l : List (Nat × arg_struct)}
    (h : IsList hp p l) : ∀ a ∈ l.map Prod.fst, ∃ e, hp.elem a = some e := by
  induction h with
  | nil => simp
  | cons he _ ih =>
    intro a ha
    simp only [List.map_cons, List.mem_cons] at ha
    rcases ha with rfl | ha
    · exact ⟨_, he⟩
    · exact ih a ha

theorem IsList.addr_le {hp : Heap} {p : Nat} {l : List (Nat × arg_struct)}
    (h : IsList hp p l) : ∀ a ∈ l.map Prod.fst, 1 ≤ a ∧ a ≤ hp.length := by
  intro a ha
  obtain ⟨e, he⟩ := h.live a ha
  exact load_le ((elem_iff _ _ _).1 he)

theorem IsList.suffix_of_mem {hp : Heap} {p : Nat} {l : List (Nat × arg_struct)}
    (h : IsList hp p l) :
    ∀ a ∈ l.map Prod.fst, ∃ l', IsList hp a l' ∧ l'.length ≤ l.length := by
  induction h with
  | nil => simp
  | @cons p e rest he hr ih =>
    intro a ha
    simp only [List.map_cons, List.mem_cons] at ha
    rcases ha with rfl | ha
    · exact ⟨_, IsList.cons he hr, le_refl _⟩
    · obtain ⟨l', hl', hlen⟩ := ih a ha
      exact ⟨l', hl', by simp only [List.length_cons]; omega⟩

/-- A chain that ends in `NULL` visits no element twice. -/
theorem IsList.nodup {hp : Heap} {p : Nat} {l : List (Nat × arg_struct)}
    (h : IsList hp p l) : (l.map Prod.fst).Nodup := by
  induction h with
  | nil => simp
  | @cons p e rest he hr ih =>
    simp only [List.map_cons, List.nodup_cons]
    refine ⟨fun hmem => ?_, ih⟩
    obtain ⟨l', hl', hlen⟩ := hr.suffix_of_mem p hmem
    have := IsList.functional hl' (IsList.cons he hr)
    rw [this] at hlen
    simp only [List.length_cons] at hlen
    omega

/-- A chain is no longer than the heap has objects. -/
theorem IsList.length_le {hp : Heap} {p : Nat} {l : List (Nat × arg_struct)}
    (h : IsList hp p l) : l.length ≤ hp.length := by
  have hsub : l.map Prod.fst ⊆ List.range' 1 hp.length := by
    intro a ha
    have := h.addr_le a ha
    rw [List.mem_range'_1]
    omega
  have := (List.subperm_of_subset h.nodup hsub).length_le
  simpa using this

theorem IsList.grow {hp : Heap} {p : Nat} {l : List (Nat × arg_struct)}
    (h : IsList hp p l) (c : Cell) : IsList (hp.malloc c).2 p l := by
  induction h with
  | nil => exact IsList.nil
  | cons he _ ih =>
    exact IsList.cons ((elem_iff _ _ _).2 (load_malloc_old c ((elem_iff _ _ _).1 he))) ih

theorem IsList.store_other {hp : Heap} {p : Nat} {l : List (Nat × arg_struct)}
    (h : IsList hp p l) (a : Nat) (c : Cell) (ha : a ∉ l.map Prod.fst) :
    IsList (hp.store a c) p l := by
  induction h with
  | nil => exact IsList.nil
  | @cons p e rest he _ ih =>
    simp only [List.map_cons, List.mem_cons, not_or] at ha
    have hpa : p ≠ a := fun h => ha.1 h.symm
    refine IsList.cons ?_ (ih ha.2)
    rw [elem_iff, load_store_ne hp c hpa]
    exact (elem_iff _ _ _).1 he

/-- The loop of `addData` on a well-formed chain: with enough fuel it returns
the last element, and linking a new element behind it extends the chain. -/
theorem lastElement_spec {hp : Heap} {p : Nat} {l : List (Nat × arg_struct)}
    (h : IsList hp p l) (hne : l ≠ []) (fuel : Nat) (hfuel : l.length ≤ fuel) :
    ∃ t e, lastElement hp fuel p = some t ∧ hp.elem t = some e ∧ e.next = NULL ∧
      ∀ new x, new ∉ l.map Prod.fst →
        hp.elem new = some { next := NULL, data := x } →
        IsList (hp.store t (Cell.elem { e with next := new })) p (l ++ [(new, x)]) := by
  induction h generalizing fuel with
  | nil => exact absurd rfl hne
  | @cons p e rest he hr ih =>
    obtain ⟨f, rfl⟩ : ∃ f, fuel = f + 1 := by
      simp only [List.length_cons] at hfuel
      exact ⟨fuel - 1, by omega⟩
    have hstep : lastElement hp (f + 1) p =
        if e.next = NULL then some p else lastElement hp f e.next := by
      simp [lastElement, he]
    by_cases hrest : rest = []
    · subst hrest
      have hnext : e.next = NULL := hr.null_of_nil
      refine ⟨p, e, by rw [hstep, if_pos hnext], he, hnext, ?_⟩
      intro new x hnew hx
      simp only [List.map_cons, List.map_nil, List.mem_singleton] at hnew
      have hload := (elem_iff _ _ _).1 he
      refine IsList.cons (e := { e with next := new }) ?_ ?_
      · exact (elem_iff _ _ _).2 (load_store_same _ hload)
      · refine IsList.cons (e := { next := NULL, data := x }) ?_ IsList.nil
        rw [elem_iff, load_store_ne hp _ hnew]
        exact (elem_iff _ _ _).1 hx
    · have hnext : e.next ≠ NULL := by
        intro h0
        rw [h0] at hr
        exact hrest hr.of_null
      simp only [List.length_cons] at hfuel
      obtain ⟨t, e', hlast, het, hnt, hext⟩ := ih hrest f (by omega)
      refine ⟨t, e', by rw [hstep, if_neg hnext]; exact hlast, het, hnt, ?_⟩
      intro new x hnew hx
      simp only [List.map_cons, List.mem_cons, not_or] at hnew
      have hpt : p ≠ t := by
        intro hpt
        rw [hpt, het] at he
        cases he
        exact hnext hnt
      refine IsList.cons (e := e) ?_ (hext new x hnew.2 hx)
      rw [elem_iff, load_store_ne hp _ hpt]
      exact (elem_iff _ _ _).1 he

/-- The contract of `addData` on a queue that holds `q`: it returns, the queue
then holds `q` followed by the new item, exactly one object has been
allocated, and every object that is not the list head or a list element is
left as it was. -/
theorem addData_spec {hp : Heap} {inQueue : Nat} {q : List arg_struct}
    (hq : QueueHolds hp inQueue q) (x : arg_struct) :
    ∃ hp', addData inQueue x hp = some hp' ∧ QueueHolds hp' inQueue (q ++ [x]) ∧
      hp'.length = hp.length + 1 ∧
      ∀ p c, hp.load p = some c → (∀ l, c ≠ Cell.list l) → (∀ e, c ≠ Cell.elem e) →
        hp'.load p = some c := by
  obtain ⟨l, cells, hl, hcells, hmap⟩ := hq
  have hlload := (list_iff _ _ _).1 hl
  have hqle := load_le hlload
  let c0 : Cell := Cell.elem { next := NULL, data := x }
  have hl1 : (hp.malloc c0).2.list inQueue = some l :=
    (list_iff _ _ _).2 (load_malloc_old c0 hlload)
  have hnewelem : (hp.malloc c0).2.elem (hp.length + 1) = some { next := NULL, data := x } :=
    (elem_iff _ _ _).2 (load_malloc_new hp c0)
  have hcells1 : IsList (hp.malloc c0).2 l.head cells := hcells.grow c0
  have hfresh : hp.length + 1 ∉ cells.map Prod.fst := by
    intro hmem
    have := hcells.addr_le _ hmem
    omega
  by_cases hhead : l.head = NULL
  · have hnil : cells = [] := by rw [hhead] at hcells; exact hcells.of_null
    subst hnil
    simp only [List.map_nil] at hmap
    subst hmap
    refine ⟨(hp.malloc c0).2.store inQueue (Cell.list { head := hp.length + 1 }), ?_, ?_, ?_, ?_⟩
    · simp only [addData]
      rw [hl1]
      simp only [hhead, if_true]
      rfl
    · refine ⟨{ head := hp.length + 1 }, [(hp.length + 1, x)], ?_, ?_, rfl⟩
      · exact (list_iff _ _ _).2 (load_store_same _ ((list_iff _ _ _).1 hl1))
      · refine IsList.cons (e := { next := NULL, data := x }) ?_ IsList.nil
        have hnq : hp.length + 1 ≠ inQueue := by omega
        have hst := load_store_ne (hp.malloc c0).2 (Cell.list { head := hp.length + 1 }) hnq
        rw [elem_iff]
        exact hst.trans (load_malloc_new hp c0)
    · rw [length_store, length_malloc]
    · intro p c hpc hnl _
      have hne : p ≠ inQueue := by
        intro h
        rw [h, hlload] at hpc
        cases hpc
        exact hnl l rfl
      rw [load_store_ne _ _ hne]
      exact load_malloc_old c0 hpc
  · have hne : cells ≠ [] := by
      intro h
      rw [h] at hcells
      exact hhead hcells.null_of_nil
    have hlen : cells.length ≤ (hp.malloc c0).2.length := by
      have := hcells.length_le
      rw [length_malloc]
      omega
    obtain ⟨t, e, hlast, het, _, hext⟩ := lastElement_spec hcells1 hne _ hlen
    refine ⟨(hp.malloc c0).2.store t (Cell.elem { e with next := hp.length + 1 }), ?_, ?_, ?_, ?_⟩
    · simp only [addData]
      rw [hl1]
      simp only [hhead, if_false]
      have hlast' : lastElement (hp.malloc c0).2 (hp.malloc c0).2.length l.head = some t :=
        hlast
      rw [hlast']
      simp only [het]
      rfl
    · have htq : inQueue ≠ t := by
        intro h
        rw [← h, elem_iff, (list_iff _ _ _).1 hl1] at het
        cases het
      refine ⟨l, cells ++ [(hp.length + 1, x)], ?_, hext _ x hfresh hnewelem, ?_⟩
      · rw [list_iff, load_store_ne _ _ htq]
        exact (list_iff _ _ _).1 hl1
      · simp [hmap]
    · rw [length_store, length_malloc]
    · intro p c hpc _ hne'
      have hload1 := load_malloc_old c0 hpc
      have hpt : p ≠ t := by
        intro h
        rw [h, (elem_iff _ _ _).1 het] at hload1
        cases hload1
        exact hne' e rfl
      rw [load_store_ne _ _ hpt]
      exact hload1

/-- The contract of `removeHead` on a queue that holds `x :: q`: it returns `x`
and the queue then holds `q`; no object other than the list head changes. -/
theorem removeHead_spec {hp : Heap} {inQueue : Nat} {x : arg_struct} {q : List arg_struct}
    (hq : QueueHolds hp inQueue (x :: q)) :
    ∃ hp', removeHead inQueue hp = some (x, hp') ∧ QueueHolds hp' inQueue q ∧
      hp'.length = hp.length ∧
      ∀ p, p ≠ inQueue → hp'.load p = hp.load p := by
  obtain ⟨l, cells, hl, hcells, hmap⟩ := hq
  rcases hcells.inv with ⟨_, hnil⟩ | ⟨e, rest, he, hr, hcons⟩
  · rw [hnil] at hmap; simp at hmap
  · subst hcons
    simp only [List.map_cons, List.cons.injEq] at hmap
    obtain ⟨hx, hrest⟩ := hmap
    refine ⟨hp.store inQueue (Cell.list { head := e.next }), ?_, ?_, length_store _ _ _,
      fun p hne => load_store_ne _ _ hne⟩
    · simp only [removeHead, hl, he, hx]
    · refine ⟨{ head := e.next }, rest, ?_, ?_, hrest⟩
      · exact (list_iff _ _ _).2 (load_store_same _ ((list_iff _ _ _).1 hl))
      · apply hr.store_other
        intro hmem
        obtain ⟨e', he'⟩ := hr.live _ hmem
        rw [elem_iff, (list_iff _ _ _).1 hl] at he'
        cases he'

/-- An empty queue has a `NULL` head. -/
theorem QueueHolds.head_null {hp : Heap} {inQueue : Nat} (hq : QueueHolds hp inQueue []) :
    hp.list inQueue = some { head := NULL } := by
  obtain ⟨l, cells, hl, hcells, hmap⟩ := hq
  have : cells = [] := by simpa using hmap
  subst this
  have := hcells.null_of_nil
  rw [hl]
  cases l
  simp_all

theorem QueueHolds.extend {hp : Heap} {inQueue : Nat} {q : List arg_struct}
    (hq : QueueHolds hp inQueue q) (c : Cell) : QueueHolds (hp.malloc c).2 inQueue q := by
  obtain ⟨l, cells, hl, hcells, hmap⟩ := hq
  exact ⟨l, cells, (list_iff _ _ _).2 (load_malloc_old c ((list_iff _ _ _).1 hl)),
    hcells.grow c, hmap⟩

/-- The queue is untouched by an assignment to a header or a byte buffer. -/
theorem QueueHolds.store_data {hp : Heap} {inQueue : Nat} {q : List arg_struct}
    (hq : QueueHolds hp inQueue q) (a : Nat) (c : Cell)
    (ha : ∃ c0, hp.load a = some c0 ∧ (∀ l, c0 ≠ Cell.list l) ∧ (∀ e, c0 ≠ Cell.elem e)) :
    QueueHolds (hp.store a c) inQueue q := by
  obtain ⟨l, cells, hl, hcells, hmap⟩ := hq
  obtain ⟨c0, hc0, hnl, hne⟩ := ha
  refine ⟨l, cells, ?_, ?_, hmap⟩
  · have hqa : inQueue ≠ a := by
      intro h
      rw [← h, (list_iff _ _ _).1 hl] at hc0
      cases hc0
      exact hnl l rfl
    rw [list_iff, load_store_ne _ _ hqa]
    exact (list_iff _ _ _).1 hl
  · apply hcells.store_other
    intro hmem
    obtain ⟨e, he⟩ := hcells.live _ hmem
    rw [elem_iff, hc0] at he
    cases he
    exact hne e rfl

/-! ## dispatch -/

theorem initThreads_eq (junk : Nat) (s : Globals) :
    initThreads junk s =
      { i := s.i, verb := s.verb, queue := s.heap.length + 1,
        threads := s.threads ++ List.range 10,
        heap := s.heap ++ [Cell.list { head := junk }] } := by
  simp [initThreads, Heap.malloc, List.range, List.range.loop]

theorem dispatchInit_of_ne (junk : Nat) (verbose : Int) (s : Globals) (h : s.i ≠ 0) :
    dispatchInit junk verbose s = s := by
  simp [dispatchInit, h]

theorem dispatchInit_of_eq (junk : Nat) (verbose : Int) (s : Globals) (h : s.i = 0) :
    dispatchInit junk verbose s =
      { i := 1, verb := verbose, queue := s.heap.length + 1,
        threads := s.threads ++ List.range 10,
        heap := s.heap ++ [Cell.list { head := junk }] } := by
  simp [dispatchInit, h, initThreads_eq]

/-- The two copies and the `addData` of `dispatch`, on a state whose queue
holds `q`: the call returns, only the heap changes, the queue then holds `q`
followed by one item that points to a fresh header equal to `*header` and a
fresh buffer with the first `caplen` bytes of `packet`, and no header or byte
buffer that existed before is modified. -/
theorem dispatchEnqueue_spec (header packet : Nat) (s1 : Globals)
    (q : List arg_struct) (hd : pcap_pkthdr) (src : List Nat)
    (hq : QueueHolds s1.heap s1.queue q)
    (hh : s1.heap.hdr header = some hd) (hb : s1.heap.buf packet = some src)
    (hlen : hd.caplen ≤ src.length) :
    ∃ hp', dispatchEnqueue header packet s1 = some { s1 with heap := hp' } ∧
      QueueHolds hp' s1.queue
        (q ++ [{ hdr := s1.heap.length + 1, pkt := s1.heap.length + 2 }]) ∧
      hp'.hdr (s1.heap.length + 1) = some hd ∧
      hp'.buf (s1.heap.length + 2) = some (src.take hd.caplen) ∧
      hp'.length = s1.heap.length + 3 ∧
      ∀ p c, s1.heap.load p = some c →
        (∀ l, c ≠ Cell.list l) → (∀ e, c ≠ Cell.elem e) → hp'.load p = some c := by
  let m := s1.heap.malloc (Cell.hdr hd)
  let m2 := m.2.malloc (Cell.buf (src.take hd.caplen))
  have hb1 : m.2.buf packet = some src :=
    (buf_iff _ _ _).2 (load_malloc_old _ ((buf_iff _ _ _).1 hb))
  have hq2 : QueueHolds m2.2 s1.queue q := (hq.extend _).extend _
  obtain ⟨hp', hadd, hq', hlen', hframe⟩ :=
    addData_spec hq2 { hdr := m.1, pkt := m2.1 }
  have hm1 : m.1 = s1.heap.length + 1 := rfl
  have hm2 : m2.1 = s1.heap.length + 2 := by
    show m.2.length + 1 = _
    rw [length_malloc]
  have hload1 : m2.2.load (s1.heap.length + 1) = some (Cell.hdr hd) :=
    load_malloc_old _ (load_malloc_new s1.heap (Cell.hdr hd))
  have hload2 : m2.2.load (s1.heap.length + 2) = some (Cell.buf (src.take hd.caplen)) := by
    rw [← hm2]; exact load_malloc_new m.2 _
  refine ⟨hp', ?_, ?_, ?_, ?_, ?_, ?_⟩
  · unfold dispatchEnqueue
    simp only [hh]
    have hb1' : (s1.heap.malloc (Cell.hdr hd)).2.buf packet = some src := hb1
    simp only [hb1', not_lt.2 hlen, if_false]
    have hadd' : addData s1.queue
        { hdr := (s1.heap.malloc (Cell.hdr hd)).1,
          pkt := ((s1.heap.malloc (Cell.hdr hd)).2.malloc
            (Cell.buf (src.take hd.caplen))).1 }
        ((s1.heap.malloc (Cell.hdr hd)).2.malloc (Cell.buf (src.take hd.caplen))).2
        = some hp' := hadd
    simp only [hadd']
  · rw [hm1, hm2] at hq'; exact hq'
  · exact (hdr_iff _ _ _).2 (hframe _ _ hload1 (fun _ h => by cases h) (fun _ h => by cases h))
  · exact (buf_iff _ _ _).2 (hframe _ _ hload2 (fun _ h => by cases h) (fun _ h => by cases h))
  · rw [hlen']
    show (m.2.malloc _).2.length + 1 = _
    rw [length_malloc, length_malloc]
  · intro p c hpc hnl hne
    exact hframe p c (load_malloc_old _ (load_malloc_old _ hpc)) hnl hne

theorem addAll_spec {inQueue : Nat} (xs : List arg_struct) {hp : Heap}
    {q : List arg_struct} (hq : QueueHolds hp inQueue q) :
    ∃ hp1, addAll inQueue xs hp = some hp1 ∧ QueueHolds hp1 inQueue (q ++ xs) := by
  induction xs generalizing hp q with
  | nil => exact ⟨hp, rfl, by simpa using hq⟩
  | cons x xs ih =>
    obtain ⟨hp', hadd, hq', _, _⟩ := addData_spec hq x
    obtain ⟨hp1, hall, hq1⟩ := ih hq'
    refine ⟨hp1, ?_, by simpa using hq1⟩
    simp only [addAll, hadd]
    exact hall

theorem removeN_spec {inQueue : Nat} (q : List arg_struct) {hp : Heap}
    (hq : QueueHolds hp inQueue q) :
    ∃ hp2, removeN inQueue q.length hp = some (q, hp2) ∧ QueueHolds hp2 inQueue [] := by
  induction q generalizing hp with
  | nil => exact ⟨hp, rfl, hq⟩
  | cons x q ih =>
    obtain ⟨hp', hrem, hq', _, _⟩ := removeHead_spec hq
    obtain ⟨hp2, hall, hq2⟩ := ih hq'
    refine ⟨hp2, ?_, hq2⟩
    simp only [List.length_cons, removeN, hrem, hall]

theorem dispatchEnqueue_globals {header packet : Nat} {s1 s' : Globals}
    (h : dispatchEnqueue header packet s1 = some s') :
    ∃ hp', s' = { s1 with heap := hp' } := by
  unfold dispatchEnqueue at h
  cases hh : s1.heap.hdr header with
  | none => simp [hh] at h
  | some hd =>
    simp only [hh] at h
    cases hb : (s1.heap.malloc (Cell.hdr hd)).2.buf packet with
    | none => simp [hb] at h
    | some src =>
      simp only [hb] at h
      by_cases hlen : src.length < hd.caplen
      · simp [hlen] at h
      · simp only [hlen, if_false] at h
        cases ha : addData s1.queue
            { hdr := (s1.heap.malloc (Cell.hdr hd)).1,
              pkt := ((s1.heap.malloc (Cell.hdr hd)).2.malloc
                (Cell.buf (src.take hd.caplen))).1 }
            ((s1.heap.malloc (Cell.hdr hd)).2.malloc (Cell.buf (src.take hd.caplen))).2 with
        | none => simp [ha] at h
        | some h4 =>
          simp only [ha, Option.some.injEq] at h
          exact ⟨h4, h.symm⟩

/-- The globals that `dispatch` leaves behind are those of its initialisation
step; only the heap changes afterwards. -/
theorem dispatch_globals {junk header packet : Nat} {verbose : Int} {s s' : Globals}
    (h : dispatch junk header packet verbose s = some s') :
    s'.i = (dispatchInit junk verbose s).i ∧ s'.verb = (dispatchInit junk verbose s).verb ∧
    s'.queue = (dispatchInit junk verbose s).queue ∧
    s'.threads = (dispatchInit junk verbose s).threads := by
  obtain ⟨hp', rfl⟩ := dispatchEnqueue_globals h
  exact ⟨rfl, rfl, rfl, rfl⟩

/-- Once `i` is non-zero, `dispatch` never runs `initThreads` again. -/
theorem dispatch_keeps_init {junk header packet : Nat} {verbose : Int} {s s' : Globals}
    (hi : s.i ≠ 0) (h : dispatch junk header packet verbose s = some s') :
    s'.i = s.i ∧ s'.verb = s.verb ∧ s'.queue = s.queue ∧ s'.threads = s.threads := by
  have := dispatch_globals h
  rw [dispatchInit_of_ne junk verbose s hi] at this
  exact this

theorem dispatchAll_keeps_init {junk : Nat} (calls : List (Nat × Nat × Int))
    {s s' : Globals} (hi : s.i ≠ 0) (h : dispatchAll junk calls s = some s') :
    s'.i = s.i ∧ s'.verb = s.verb ∧ s'.queue = s.queue ∧ s'.threads = s.threads := by
  induction calls generalizing s with
  | nil =>
    simp only [dispatchAll, Option.some.injEq] at h
    subst h
    exact ⟨rfl, rfl, rfl, rfl⟩
  | cons c cs ih =>
    simp only [dispatchAll] at h
    split at h
    · simp at h
    · next s1 hs1 =>
      obtain ⟨h1, h2, h3, h4⟩ := dispatch_keeps_init hi hs1
      obtain ⟨k1, k2, k3, k4⟩ := ih (by rw [h1]; exact hi) h
      exact ⟨k1.trans h1, k2.trans h2, k3.trans h3, k4.trans h4⟩

theorem ValidCall.preserved {hp hp' : Heap} {c : Nat × Nat × Int} (hv : ValidCall hp c)
    (hframe : ∀ p x, hp.load p = some x → (∀ l, x ≠ Cell.list l) → (∀ e, x ≠ Cell.elem e) →
      hp'.load p = some x) : ValidCall hp' c := by
  obtain ⟨hd, src, hh, hb, hlen⟩ := hv
  refine ⟨hd, src, ?_, ?_, hlen⟩
  · exact (hdr_iff _ _ _).2 (hframe _ _ ((hdr_iff _ _ _).1 hh)
      (fun _ h => by cases h) (fun _ h => by cases h))
  · exact (buf_iff _ _ _).2 (hframe _ _ ((buf_iff _ _ _).1 hb)
      (fun _ h => by cases h) (fun _ h => by cases h))

/-- From an initialised state with a well-formed queue, every sequence of
calls with usable arguments returns. -/
theorem dispatchAll_returns {junk : Nat} (calls : List (Nat × Nat × Int)) {s : Globals}
    {q : List arg_struct} (hi : s.i ≠ 0) (hq : QueueHolds s.heap s.queue q)
    (hv : ∀ c ∈ calls, ValidCall s.heap c) :
    ∃ s', dispatchAll junk calls s = some s' := by
  induction calls generalizing s q with
  | nil => exact ⟨s, rfl⟩
  | cons c cs ih =>
    obtain ⟨hd, src, hh, hb, hlen⟩ := hv c (List.mem_cons_self _ _)
    obtain ⟨hp', hdis, hq', _, _, _, hframe⟩ :=
      dispatchEnqueue_spec c.1 c.2.1 s q hd src hq hh hb hlen
    have hstep : dispatch junk c.1 c.2.1 c.2.2 s = some { s with heap := hp' } := by
      unfold dispatch
      rw [dispatchInit_of_ne junk c.2.2 s hi]
      exact hdis
    obtain ⟨s', hs'⟩ := ih (s := { s with heap := hp' }) hi hq'
      (fun c' hc' => (hv c' (List.mem_cons_of_mem _ hc')).preserved hframe)
    exact ⟨s', by simp only [dispatchAll, hstep]; exact hs'⟩

/-- The state after the initialisation step of a first call whose fresh queue
block happens to hold `NULL`: an empty queue. -/
theorem dispatchInit_first_null (verbose : Int) (s : Globals) (hi : s.i = 0) :
    QueueHolds (dispatchInit NULL verbose s).heap (dispatchInit NULL verbose s).queue [] := by
  rw [dispatchInit_of_eq NULL verbose s hi]
  refine ⟨{ head := NULL }, [], ?_, IsList.nil, rfl⟩
  exact (list_iff _ _ _).2 (load_malloc_new s.heap (Cell.list { head := NULL }))

/-- A call of `dispatch` on an initialised state whose queue holds `q`: the
queue afterwards holds `q` and one more item at the tail; the item points to
two fresh objects, a header equal to `*header` and a buffer with the first
`caplen` bytes of `packet`; and whatever the caller later writes to `*header`
and to the packet buffer, the queue and the two copies stay as they are. -/
theorem dispatch_appends (junk header packet : Nat) (verbose : Int) (s : Globals)
    (q : List arg_struct) (hd : pcap_pkthdr) (src : List Nat)
    (hi : s.i ≠ 0) (hq : QueueHolds s.heap s.queue q)
    (hh : s.heap.hdr header = some hd) (hb : s.heap.buf packet = some src)
    (hlen : hd.caplen ≤ src.length) :
    ∃ s', dispatch junk header packet verbose s = some s' ∧
      s'.i = s.i ∧ s'.verb = s.verb ∧ s'.queue = s.queue ∧ s'.threads = s.threads ∧
      QueueHolds s'.heap s.queue (q ++ [{ hdr := s.heap.length + 1, pkt := s.heap.length + 2 }]) ∧
      s'.heap.hdr (s.heap.length + 1) = some hd ∧
      s'.heap.buf (s.heap.length + 2) = some (src.take hd.caplen) ∧
      s.heap.load (s.heap.length + 1) = none ∧ s.heap.load (s.heap.length + 2) = none ∧
      ∀ (hd' : pcap_pkthdr) (src' : List Nat),
        QueueHolds ((s'.heap.store header (Cell.hdr hd')).store packet (Cell.buf src')) s.queue
          (q ++ [{ hdr := s.heap.length + 1, pkt := s.heap.length + 2 }]) ∧
        ((s'.heap.store header (Cell.hdr hd')).store packet (Cell.buf src')).hdr
          (s.heap.length + 1) = some hd ∧
        ((s'.heap.store header (Cell.hdr hd')).store packet (Cell.buf src')).buf
          (s.heap.length + 2) = some (src.take hd.caplen) := by
  obtain ⟨hp', hdis, hq', hhdr, hbuf, _, hframe⟩ :=
    dispatchEnqueue_spec header packet s q hd src hq hh hb hlen
  have hstep : dispatch junk header packet verbose s = some { s with heap := hp' } := by
    unfold dispatch
    rw [dispatchInit_of_ne junk verbose s hi]
    exact hdis
  have hhle := load_le ((hdr_iff _ _ _).1 hh)
  have hble := load_le ((buf_iff _ _ _).1 hb)
  have hnone : ∀ p, s.heap.length < p → s.heap.load p = none := by
    intro p hp
    cases hl : s.heap.load p with
    | none => rfl
    | some c => have := load_le hl; omega
  refine ⟨{ s with heap := hp' }, hstep, rfl, rfl, rfl, rfl, hq', hhdr, hbuf,
    hnone _ (by omega), hnone _ (by omega), ?_⟩
  intro hd' src'
  have hh' : hp'.load header = some (Cell.hdr hd) :=
    hframe _ _ ((hdr_iff _ _ _).1 hh) (fun _ h => by cases h) (fun _ h => by cases h)
  have hb' : hp'.load packet = some (Cell.buf src) :=
    hframe _ _ ((buf_iff _ _ _).1 hb) (fun _ h => by cases h) (fun _ h => by cases h)
  have hpk : packet ≠ header := by
    intro h
    rw [h, hh'] at hb'
    cases hb'
  have hb'' : (hp'.store header (Cell.hdr hd')).load packet = some (Cell.buf src) := by
    rw [load_store_ne _ _ hpk]; exact hb'
  have hq1 : QueueHolds (hp'.store header (Cell.hdr hd')) s.queue _ :=
    hq'.store_data header (Cell.hdr hd')
      ⟨Cell.hdr hd, hh', fun _ h => (by cases h), fun _ h => (by cases h)⟩
  have hq2 := hq1.store_data packet (Cell.buf src')
      ⟨Cell.buf src, hb'', fun _ h => (by cases h), fun _ h => (by cases h)⟩
  refine ⟨hq2, ?_, ?_⟩
  · rw [hdr_iff, load_store_ne _ _ (by omega), load_store_ne _ _ (by omega)]
    exact (hdr_iff _ _ _).1 hhdr
  · rw [buf_iff, load_store_ne _ _ (by omega), load_store_ne _ _ (by omega)]
    exact (buf_iff _ _ _).1 hbuf

/-- The first call of `dispatch` when the fresh queue block happens to hold
`NULL`: the queue is created and then holds exactly the submitted item. -/
theorem dispatch_first_null (header packet : Nat) (verbose : Int) (s : Globals)
    (hd : pcap_pkthdr) (src : List Nat) (hi : s.i = 0)
    (hh : s.heap.hdr header = some hd) (hb : s.heap.buf packet = some src)
    (hlen : hd.caplen ≤ src.length) :
    ∃ s', dispatch NULL header packet verbose s = some s' ∧
      s'.i = 1 ∧ s'.verb = verbose ∧ s'.queue = s.heap.length + 1 ∧
      s'.threads = s.threads ++ List.range 10 ∧
      QueueHolds s'.heap s'.queue [{ hdr := s.heap.length + 2, pkt := s.heap.length + 3 }] ∧
      s'.heap.hdr (s.heap.length + 2) = some hd ∧
      s'.heap.buf (s.heap.length + 3) = some (src.take hd.caplen) ∧
      ∀ p c, s.heap.load p = some c → (∀ l, c ≠ Cell.list l) → (∀ e, c ≠ Cell.elem e) →
        s'.heap.load p = some c := by
  have hq0 := dispatchInit_first_null verbose s hi
  have heq := dispatchInit_of_eq NULL verbose s hi
  have hold : ∀ p c, s.heap.load p = some c →
      (dispatchInit NULL verbose s).heap.load p = some c := by
    intro p c hpc
    rw [heq]
    exact load_malloc_old (Cell.list { head := NULL }) hpc
  obtain ⟨hp', hdis, hq', hhdr, hbuf, _, hframe⟩ :=
    dispatchEnqueue_spec header packet (dispatchInit NULL verbose s) [] hd src hq0
      ((hdr_iff _ _ _).2 (hold _ _ ((hdr_iff _ _ _).1 hh)))
      ((buf_iff _ _ _).2 (hold _ _ ((buf_iff _ _ _).1 hb))) hlen
  have hlen1 : (dispatchInit NULL verbose s).heap.length = s.heap.length + 1 := by
    rw [heq]; simp
  rw [hlen1] at hq' hhdr hbuf
  refine ⟨_, hdis, ?_, ?_, ?_, ?_, ?_, hhdr, hbuf, ?_⟩
  · rw [heq]
  · rw [heq]
  · rw [heq]
  · rw [heq]
  · have hqueue : (dispatchInit NULL verbose s).queue = s.heap.length + 1 := by rw [heq]
    simpa [hqueue] using hq'
  · intro p c hpc hnl hne
    exact hframe p c (hold p c hpc) hnl hne

/-! ## The worker loop -/

/-- The queue block that `initThreads` leaves behind holds the stale value. -/
theorem initThreads_head (junk : Nat) (s : Globals) :
    (initThreads junk s).heap.list (initThreads junk s).queue = some { head := junk } := by
  rw [initThreads_eq]
  exact (list_iff _ _ _).2 (load_malloc_new s.heap (Cell.list { head := junk }))

/-- A non-empty queue has a head that is not `NULL`. -/
theorem QueueHolds.head_ne_null {hp : Heap} {inQueue : Nat} {x : arg_struct}
    {q : List arg_struct} (hq : QueueHolds hp inQueue (x :: q)) :
    ∃ l, hp.list inQueue = some l ∧ l.head ≠ NULL := by
  obtain ⟨l, cells, hl, hcells, hmap⟩ := hq
  refine ⟨l, hl, fun h0 => ?_⟩
  rw [h0] at hcells
  rw [hcells.of_null] at hmap
  simp at hmap

/-- The contract of one worker pass on a well-formed queue. -/
theorem analysisthread_iteration_spec (adjacent : List Nat) (s : Globals) (c : Counters)
    (q : List arg_struct) (hq : QueueHolds s.heap s.queue q) :
    (q = [] → analysisthread_iteration adjacent s c = some (s, c)) ∧
    (∀ x rest hd bytes, q = x :: rest →
      s.heap.hdr x.hdr = some hd → s.heap.buf x.pkt = some bytes →
      ∃ hp', analysisthread_iteration adjacent s c =
          some ({ s with heap := hp' }, analyse hd (bytes ++ adjacent) s.verb c) ∧
        QueueHolds hp' s.queue rest ∧
        ∀ p, p ≠ s.queue → hp'.load p = s.heap.load p) := by
  constructor
  · intro hnil
    subst hnil
    unfold analysisthread_iteration
    rw [hq.head_null]
    simp
  · intro x rest hd bytes hcons hh hb
    subst hcons
    obtain ⟨l, hl, hne⟩ := hq.head_ne_null
    obtain ⟨hp', hrem, hq', _, hframe⟩ := removeHead_spec hq
    have hxq : x.hdr ≠ s.queue := by
      intro h
      rw [h, hdr_iff, (list_iff _ _ _).1 hl] at hh
      cases hh
    have hpq : x.pkt ≠ s.queue := by
      intro h
      rw [h, buf_iff, (list_iff _ _ _).1 hl] at hb
      cases hb
    have hh' : hp'.hdr x.hdr = some hd := by
      rw [hdr_iff, hframe _ hxq]; exact (hdr_iff _ _ _).1 hh
    have hb' : hp'.buf x.pkt = some bytes := by
      rw [buf_iff, hframe _ hpq]; exact (buf_iff _ _ _).1 hb
    refine ⟨hp', ?_, hq', hframe⟩
    unfold analysisthread_iteration
    simp only [hl, hne, if_false, hrem, hh', hb']

/-! ## Lock discipline -/

theorem runLocks_append (held : Option Mutex) (a b : List LockEvent) :
    runLocks held (a ++ b) = (runLocks held a).bind (fun h => runLocks h b) := by
  induction a generalizing held with
  | nil => simp [runLocks]
  | cons e es ih =>
    cases held with
    | none =>
      cases e with
      | lock m => simp only [List.cons_append, runLocks]; exact ih _
      | unlock m => simp [runLocks]
    | some h =>
      cases e with
      | lock m => simp [runLocks]
      | unlock m =>
        simp only [List.cons_append, runLocks]
        split
        · exact ih _
        · simp

/-- A critical section: lock one mutex, unlock it. -/
theorem runLocks_section (m : Mutex) :
    runLocks none [LockEvent.lock m, LockEvent.unlock m] = some none := by
  simp [runLocks]

/-- An operation whose lock calls replay to the end never violates the
discipline at an earlier point either. -/
theorem runLocks_prefix_ok {held : Option Mutex} {es pre : List LockEvent}
    {r : Option Mutex} (h : runLocks held es = some r) (hpre : pre <+: es) :
    (runLocks held pre).isSome = true := by
  obtain ⟨post, rfl⟩ := hpre
  rw [runLocks_append] at h
  cases hp : runLocks held pre with
  | none => rw [hp] at h; simp at h
  | some x => rfl

theorem runLocks_balanced_append {a b : List LockEvent}
    (ha : runLocks none a = some none) (hb : runLocks none b = some none) :
    runLocks none (a ++ b) = some none := by
  rw [runLocks_append, ha]
  exact hb

theorem runLocks_balanced_ite (p : Prop) [Decidable p] {a b : List LockEvent}
    (ha : runLocks none a = some none) (hb : runLocks none b = some none) :
    runLocks none (if p then a else b) = some none := by
  split
  · exact ha
  · exact hb

/-! ## The instrumented functions agree with the plain ones -/

theorem Traced.pure_value {α : Type} (a : α) : (pure a : Traced α).value = a := rfl

theorem Traced.pure_events {α : Type} (a : α) : (pure a : Traced α).events = [] := rfl

theorem Traced.bind_value {α β : Type} (m : Traced α) (f : α → Traced β) :
    (m >>= f).value = (f m.value).value := rfl

theorem Traced.bind_events {α β : Type} (m : Traced α) (f : α → Traced β) :
    (m >>= f).events = m.events ++ (f m.value).events := rfl

theorem Traced.ite_value {α : Type} (p : Prop) [Decidable p] (a b : Traced α) :
    (if p then a else b).value = if p then a.value else b.value := by
  split <;> rfl

theorem Traced.ite_events {α : Type} (p : Prop) [Decidable p] (a b : Traced α) :
    (if p then a else b).events = if p then a.events else b.events := by
  split <;> rfl

theorem lockCallsOf_nil : lockCallsOf [] = [] := rfl

theorem lockCallsOf_append (a b : List Event) :
    lockCallsOf (a ++ b) = lockCallsOf a ++ lockCallsOf b := by
  simp [lockCallsOf, List.filterMap_append]

theorem lockCallsOf_read (k : Nat) (es : List Event) :
    lockCallsOf (Event.read k :: es) = lockCallsOf es := by
  simp [lockCallsOf]

theorem lockCallsOf_sync (l : LockEvent) (es : List Event) :
    lockCallsOf (Event.sync l :: es) = l :: lockCallsOf es := by
  simp [lockCallsOf]

theorem lockCallsOf_map_read (l : List Nat) : lockCallsOf (l.map Event.read) = [] := by
  induction l with
  | nil => rfl
  | cons a as ih => rw [List.map_cons, lockCallsOf_read, ih]

theorem ethernet_traced_value (packet : List Nat) (verbose : Int) :
    (ethernet_traced packet verbose).value = ntohs (ether_type packet) := by
  unfold ethernet_traced
  by_cases hv : verbose = 1 <;> simp [Traced.bind_value, Traced.pure_value, hv, deref16, ether_type]

theorem ethernet_traced_events (packet : List Nat) (verbose : Int) :
    (ethernet_traced packet verbose).events =
      [Event.read 12, Event.read 13]
      ++ (if verbose = 1 then (List.range' 6 6 ++ List.range' 0 6).map Event.read else []) := by
  unfold ethernet_traced
  by_cases hv : verbose = 1 <;>
    simp [Traced.bind_events, Traced.pure_events, Traced.bind_value, hv, deref16, derefRange]

theorem arp_traced_value (packet : List Nat) (verbose : Int) (c : Counters) :
    (arp_traced packet verbose c).value =
      { cnt_xmasscan := c.cnt_xmasscan
        cnt_arppois := if ntohs (arp_op packet 14) = 2 then incr c.cnt_arppois
                       else c.cnt_arppois
        cnt_blacklisturl := c.cnt_blacklisturl
        cnt_pkts := incr c.cnt_pkts } := by
  unfold arp_traced arp_op
  by_cases hv : verbose = 1 <;> by_cases hop : ntohs (load16 packet (14 + 6)) = 2 <;>
    simp [Traced.bind_value, Traced.pure_value, hv, hop, deref16]

theorem arp_traced_locks (packet : List Nat) (verbose : Int) (c : Counters) :
    runLocks none (lockCallsOf (arp_traced packet verbose c).events) = some none := by
  unfold arp_traced
  by_cases hv : verbose = 1 <;> by_cases hop : ntohs (load16 packet (14 + 6)) = 2 <;>
    simp [Traced.bind_value, Traced.bind_events, Traced.pure_events, hv, hop, deref16,
      derefRange, pthread_mutex_lock, pthread_mutex_unlock, lockCallsOf_append,
      lockCallsOf_read, lockCallsOf_sync, lockCallsOf_nil, lockCallsOf_map_read, runLocks]

theorem xmas_test_traced_value (packet : List Nat) (np : Nat) :
    (xmas_test_traced packet np).value = true ↔
      tcphdr_psh packet np = 1 ∧ tcphdr_urg packet np = 1 ∧ tcphdr_fin packet np = 1 := by
  unfold xmas_test_traced tcphdr_psh tcphdr_urg tcphdr_fin
  by_cases hpsh : byteAt packet (np + 13) / 8 % 2 = 1 <;>
  by_cases hurg : byteAt packet (np + 13) / 32 % 2 = 1 <;>
    simp [Traced.bind_value, Traced.pure_value, hpsh, hurg, deref8]

theorem xmas_test_traced_locks (packet : List Nat) (np : Nat) :
    lockCallsOf (xmas_test_traced packet np).events = [] := by
  unfold xmas_test_traced
  by_cases hpsh : byteAt packet (np + 13) / 8 % 2 = 1 <;>
  by_cases hurg : byteAt packet (np + 13) / 32 % 2 = 1 <;>
    simp [Traced.bind_value, Traced.bind_events, Traced.pure_events, hpsh, hurg, deref8,
      lockCallsOf_read, lockCallsOf_nil]

theorem blacklist_traced_value (packet : List Nat) (np : Nat) (c : Counters) :
    (blacklist_traced packet np c).value =
      if ntohs (tcphdr_dest packet np) = 80 ∧
          (strstr (packet.drop (np + 4 * tcphdr_doff packet np)) blacklisted).isSome = true
      then { c with cnt_blacklisturl := incr c.cnt_blacklisturl } else c := by
  unfold blacklist_traced tcphdr_dest tcphdr_doff
  by_cases hport : ntohs (load16 packet (np + 2)) = 80 <;>
  by_cases hfound :
      (strstr (packet.drop (np + 4 * (byteAt packet (np + 12) / 16))) blacklisted).isSome = true <;>
    simp [Traced.bind_value, Traced.pure_value, hport, hfound, deref8, deref16, strstr_call]

theorem blacklist_traced_locks (packet : List Nat) (np : Nat) (c : Counters) :
    runLocks none (lockCallsOf (blacklist_traced packet np c).events) = some none := by
  unfold blacklist_traced
  by_cases hport : ntohs (load16 packet (np + 2)) = 80 <;>
  by_cases hfound :
      (strstr (packet.drop (np + 4 * (byteAt packet (np + 12) / 16))) blacklisted).isSome = true <;>
    simp [Traced.bind_value, Traced.bind_events, Traced.pure_events, hport, hfound, deref8,
      deref16, strstr_call, pthread_mutex_lock, pthread_mutex_unlock, lockCallsOf_append,
      lockCallsOf_read, lockCallsOf_sync, lockCallsOf_nil, lockCallsOf_map_read, runLocks]

theorem deref8_value (packet : List Nat) (k : Nat) : (deref8 packet k).value = byteAt packet k :=
  rfl

theorem tcpOffset_eq_deref (packet : List Nat) :
    ETH_HLEN + 4 * ((deref8 packet ETH_HLEN).value % 16) = tcpOffset packet := rfl

theorem ipv4_traced_value (packet : List Nat) (verbose : Int) (c : Counters) :
    (ipv4_traced packet verbose c).value =
      { cnt_xmasscan := if xmasFlags packet then incr c.cnt_xmasscan else c.cnt_xmasscan
        cnt_arppois := c.cnt_arppois
        cnt_blacklisturl := if blacklistHit packet then incr c.cnt_blacklisturl
                            else c.cnt_blacklisturl
        cnt_pkts := incr c.cnt_pkts } := by
  unfold ipv4_traced
  simp only [Traced.bind_value, Traced.pure_value, Traced.ite_value, tcpOffset_eq_deref,
    blacklist_traced_value]
  have hx := xmas_test_traced_value packet (tcpOffset packet)
  have hb : blacklistHit packet ↔
      (ntohs (tcphdr_dest packet (tcpOffset packet)) = 80 ∧
        (strstr (packet.drop (tcpOffset packet + 4 * tcphdr_doff packet (tcpOffset packet)))
          blacklisted).isSome = true) := Iff.rfl
  have hxf : xmasFlags packet ↔
      (tcphdr_psh packet (tcpOffset packet) = 1 ∧ tcphdr_urg packet (tcpOffset packet) = 1 ∧
        tcphdr_fin packet (tcpOffset packet) = 1) := Iff.rfl
  by_cases h1 : xmasFlags packet <;> by_cases h2 : blacklistHit packet
  all_goals
    have h1' := h1
    have h2' := h2
    rw [hxf, ← hx] at h1'
    rw [hb] at h2'
    simp [h1, h2, h1', h2']

theorem ipv4_traced_locks (packet : List Nat) (verbose : Int) (c : Counters) :
    runLocks none (lockCallsOf (ipv4_traced packet verbose c).events) = some none := by
  unfold ipv4_traced
  simp only [Traced.bind_value, Traced.bind_events, Traced.pure_events, Traced.ite_value,
    Traced.ite_events, tcpOffset_eq_deref, lockCallsOf_append, xmas_test_traced_locks]
  have hbl := blacklist_traced_locks packet (tcpOffset packet)
  by_cases hv : verbose = 1 <;> by_cases hx : (xmas_test_traced packet (tcpOffset packet)).value = true <;>
    simp [hv, hx, deref8, deref16, derefRange, pthread_mutex_lock, pthread_mutex_unlock,
      lockCallsOf_read, lockCallsOf_sync, lockCallsOf_nil, lockCallsOf_map_read,
      Traced.bind_events, Traced.pure_events, lockCallsOf_append, runLocks, hbl]

/-- The instrumented `analyse` computes the counters of `analyse`. -/
theorem analyse_traced_value (header : pcap_pkthdr) (packet : List Nat) (verbose : Int)
    (c : Counters) :
    (analyse_traced packet verbose c).value = analyse header packet verbose c := by
  rw [analyse_eq]
  unfold analyse_traced
  simp only [Traced.bind_value, Traced.pure_value, Traced.ite_value, ethernet_traced_value]
  by_cases h6 : ntohs (ether_type packet) = 2054
  · have h8 : ¬ ntohs (ether_type packet) = 2048 := by omega
    simp only [h6, if_true, arp_traced_value]
    simp
  · by_cases h8 : ntohs (ether_type packet) = 2048
    · simp only [h6, if_false, Traced.pure_value, ipv4_traced_value]
    · simp only [h6, h8, if_false, Traced.pure_value]

/-- The mutex calls of the instrumented `analyse` are short sections of
`muxlock2`, one after the other. -/
theorem analyse_traced_locks (packet : List Nat) (verbose : Int) (c : Counters) :
    runLocks none (lockCallsOf (analyse_traced packet verbose c).events) = some none := by
  unfold analyse_traced
  simp only [Traced.bind_value, Traced.bind_events, Traced.pure_events, Traced.ite_value,
    Traced.ite_events, ethernet_traced_value, ethernet_traced_events, lockCallsOf_append]
  have he1 : lockCallsOf [Event.read 12, Event.read 13] = [] := rfl
  have he2 : lockCallsOf
      (if verbose = 1 then List.map Event.read (List.range' 6 6 ++ List.range' 0 6) else [])
      = [] := by
    by_cases hv : verbose = 1
    · simp only [hv, if_true, lockCallsOf_map_read]
    · simp only [hv, if_false, lockCallsOf_nil]
  rw [he1, he2]
  simp only [List.nil_append]
  by_cases h6 : ntohs (ether_type packet) = 2054
  · have h8 : ¬ ntohs (ether_type packet) = 2048 := by omega
    rw [if_pos h6, if_neg h8, lockCallsOf_nil, List.append_nil]
    exact arp_traced_locks packet verbose c
  · by_cases h8 : ntohs (ether_type packet) = 2048
    · rw [if_neg h6, if_pos h8, lockCallsOf_nil, List.nil_append]
      exact ipv4_traced_locks packet verbose _
    · rw [if_neg h6, if_neg h8, lockCallsOf_nil, List.nil_append]
      rfl

/-! ## What the result of `analyse` depends on -/

theorem addData_traced_value (inQueue : Nat) (inData : arg_struct) (h : Heap) :
    (addData_traced inQueue inData h).value = addData inQueue inData h := by
  unfold addData_traced addData
  simp only [Traced.bind_value]
  cases h1 : Heap.list (Heap.malloc h (Cell.elem { next := NULL, data := inData })).2 inQueue with
  | none => rfl
  | some q =>
    simp only []
    by_cases hq : q.head = NULL
    · simp only [hq, if_true]; rfl
    · simp only [hq, if_false]
      cases h2 : lastElement (Heap.malloc h (Cell.elem { next := NULL, data := inData })).2
          (Heap.malloc h (Cell.elem { next := NULL, data := inData })).2.length q.head with
      | none => rfl
      | some currEle =>
        simp only []
        cases h3 : Heap.elem (Heap.malloc h (Cell.elem { next := NULL, data := inData })).2
            currEle with
        | none => rfl
        | some e => rfl

theorem addData_traced_disciplined (inQueue : Nat) (inData : arg_struct) (h : Heap) :
    LockDisciplined (addData_traced inQueue inData h) := by
  unfold LockDisciplined addData_traced
  simp only [Traced.bind_value, Traced.bind_events]
  cases h1 : Heap.list (Heap.malloc h (Cell.elem { next := NULL, data := inData })).2 inQueue with
  | none => exact ⟨rfl, fun hv => by cases hv⟩
  | some q =>
    simp only []
    by_cases hq : q.head = NULL
    · simp only [hq, if_true]; exact ⟨rfl, fun _ => rfl⟩
    · simp only [hq, if_false]
      cases h2 : lastElement (Heap.malloc h (Cell.elem { next := NULL, data := inData })).2
          (Heap.malloc h (Cell.elem { next := NULL, data := inData })).2.length q.head with
      | none => exact ⟨rfl, fun hv => by cases hv⟩
      | some currEle =>
        simp only []
        cases h3 : Heap.elem (Heap.malloc h (Cell.elem { next := NULL, data := inData })).2
            currEle with
        | none => exact ⟨rfl, fun hv => by cases hv⟩
        | some e => exact ⟨rfl, fun _ => rfl⟩

theorem dispatch_traced_value (junk : Nat) (header packet : Nat) (verbose : Int)
    (s : Globals) :
    (dispatch_traced junk header packet verbose s).value
      = dispatch junk header packet verbose s := by
  unfold dispatch_traced dispatch dispatchEnqueue
  generalize dispatchInit junk verbose s = s1
  dsimp only
  cases h1 : s1.heap.hdr header with
  | none => rfl
  | some hd =>
    dsimp only
    cases h2 : (s1.heap.malloc (Cell.hdr hd)).2.buf packet with
    | none => rfl
    | some src =>
      dsimp only
      by_cases hlt : src.length < hd.caplen
      · simp only [hlt, if_true]; rfl
      · simp only [hlt, if_false, Traced.bind_value, addData_traced_value]
        cases h3 : addData s1.queue
            { hdr := (s1.heap.malloc (Cell.hdr hd)).1,
              pkt := (((s1.heap.malloc (Cell.hdr hd)).2).malloc
                (Cell.buf (src.take hd.caplen))).1 }
            (((s1.heap.malloc (Cell.hdr hd)).2).malloc
                (Cell.buf (src.take hd.caplen))).2 with
        | none => rfl
        | some h4 => rfl

theorem dispatch_traced_disciplined (junk : Nat) (header packet : Nat) (verbose : Int)
    (s : Globals) : LockDisciplined (dispatch_traced junk header packet verbose s) := by
  unfold dispatch_traced
  generalize dispatchInit junk verbose s = s1
  dsimp only
  cases h1 : s1.heap.hdr header with
  | none => exact ⟨rfl, fun hv => by cases hv⟩
  | some hd =>
    dsimp only
    cases h2 : (s1.heap.malloc (Cell.hdr hd)).2.buf packet with
    | none => exact ⟨rfl, fun hv => by cases hv⟩
    | some src =>
      dsimp only
      by_cases hlt : src.length < hd.caplen
      · simp only [hlt, if_true]; exact ⟨rfl, fun hv => by cases hv⟩
      · simp only [hlt, if_false]
        have hd' := addData_traced_disciplined s1.queue
            { hdr := (s1.heap.malloc (Cell.hdr hd)).1,
              pkt := (((s1.heap.malloc (Cell.hdr hd)).2).malloc
                (Cell.buf (src.take hd.caplen))).1 }
            (((s1.heap.malloc (Cell.hdr hd)).2).malloc
                (Cell.buf (src.take hd.caplen))).2
        unfold LockDisciplined at hd' ⊢
        simp only [Traced.bind_value, Traced.bind_events]
        cases h3 : (addData_traced s1.queue
            { hdr := (s1.heap.malloc (Cell.hdr hd)).1,
              pkt := (((s1.heap.malloc (Cell.hdr hd)).2).malloc
                (Cell.buf (src.take hd.caplen))).1 }
            (((s1.heap.malloc (Cell.hdr hd)).2).malloc
                (Cell.buf (src.take hd.caplen))).2).value with
        | none =>
          simp only [Traced.pure_events, List.append_nil]
          exact ⟨hd'.1, fun hv => by cases hv⟩
        | some h4 =>
          simp only [Traced.pure_events, List.append_nil]
          exact ⟨hd'.1, fun _ => hd'.2 (by rw [h3]; rfl)⟩

theorem analysisthread_traced_value (adjacent : List Nat) (s : Globals) (c : Counters) :
    (analysisthread_traced adjacent s c).value = analysisthread_iteration adjacent s c := by
  unfold analysisthread_traced analysisthread_iteration
  simp only [Traced.bind_value]
  cases h1 : s.heap.list s.queue with
  | none => rfl
  | some q =>
    dsimp only
    by_cases hq : q.head = NULL
    · simp only [hq, if_true]; rfl
    · simp only [hq, if_false]
      cases h2 : removeHead s.queue s.heap with
      | none => rfl
      | some r =>
        obtain ⟨qHead, h1⟩ := r
        dsimp only
        simp only [Traced.bind_value]
        cases h3 : h1.hdr qHead.hdr with
        | none => rfl
        | some hd =>
          dsimp only
          cases h4 : h1.buf qHead.pkt with
          | none => rfl
          | some bytes =>
            dsimp only
            simp only [Traced.bind_value, Traced.pure_value,
              analyse_traced_value hd (bytes ++ adjacent) s.verb c]

theorem analysisthread_traced_disciplined (adjacent : List Nat) (s : Globals)
    (c : Counters) : LockDisciplined (analysisthread_traced adjacent s c) := by
  unfold LockDisciplined analysisthread_traced
  simp only [Traced.bind_value, Traced.bind_events]
  cases h1 : s.heap.list s.queue with
  | none => exact ⟨rfl, fun hv => by cases hv⟩
  | some q =>
    dsimp only
    by_cases hq : q.head = NULL
    · simp only [hq, if_true]; exact ⟨rfl, fun _ => rfl⟩
    · simp only [hq, if_false]
      cases h2 : removeHead s.queue s.heap with
      | none => exact ⟨rfl, fun hv => by cases hv⟩
      | some r =>
        obtain ⟨qHead, h1⟩ := r
        dsimp only
        simp only [Traced.bind_value, Traced.bind_events]
        cases h3 : h1.hdr qHead.hdr with
        | none => exact ⟨rfl, fun hv => by cases hv⟩
        | some hd =>
          dsimp only
          cases h4 : h1.buf qHead.pkt with
          | none => exact ⟨rfl, fun hv => by cases hv⟩
          | some bytes =>
            dsimp only
            simp only [Traced.bind_value, Traced.bind_events, Traced.pure_events,
              List.append_nil]
            have ha := analyse_traced_locks (bytes ++ adjacent) s.verb c
            have hall : runLocks none (lockCallsOf
                ((pthread_mutex_lock Mutex.muxlock).events ++
                  ((pthread_mutex_unlock Mutex.muxlock).events ++
                    (analyse_traced (bytes ++ adjacent) s.verb c).events))) = some none := by
              rw [← List.append_assoc, lockCallsOf_append]
              exact runLocks_balanced_append (runLocks_section Mutex.muxlock) ha
            exact ⟨by rw [hall]; rfl, fun _ => hall⟩

theorem sig_handler_locks (signo : Int) (c : Counters) :
    runLocks none (lockCallsOf (sig_handler signo c).events) = some none := by
  unfold sig_handler
  by_cases hs : signo = SIGINT
  · simp only [hs, if_true]; rfl
  · simp only [hs, if_false]; rfl

theorem sig_handler_nests (m : Mutex) (c : Counters) :
    runLocks (some m) (lockCallsOf (sig_handler SIGINT c).events) = none := rfl

theorem dispatchInit_eq (junk : Nat) (verbose : Int) (s : Globals) :
    dispatchInit junk verbose s = if s.i = 0 then firstCallBody junk verbose s else s := rfl

theorem dispatch_eq_afterGuard (junk : Nat) (header packet : Nat) (verbose : Int)
    (s : Globals) :
    dispatch junk header packet verbose s
      = dispatchAfterGuard (decide (s.i = 0)) junk header packet verbose s := by
  unfold dispatch dispatchAfterGuard
  rw [dispatchInit_eq]
  simp only [decide_eq_true_eq]

/-! ## The claims -/

/-- C1: for every frame whose Ethernet type (frame bytes 12-13, big-endian) is
0x0800 and whose byte 13 of the TCP header at offset 14 + 4*IHL has URG (0x20),
PSH (0x08) and FIN (0x01) set, one call of `analyse` performs `cnt_xmasscan++`
exactly once: the new value is the old one plus 1 as a 32-bit unsigned, which
is the old value plus 1 whenever the counter is not at its maximum.  No other
byte of the frame, the header, or `verbose` matters. -/
theorem xmas_scan_counted (header : pcap_pkthdr) (packet : List Nat) (verbose : Int)
    (c : Counters)
    (htype : byteAt packet 12 * 256 + byteAt packet 13 = 0x0800)
    (hurg : (byteAt packet (14 + 4 * (byteAt packet 14 % 16) + 13)).testBit 5 = true)
    (hpsh : (byteAt packet (14 + 4 * (byteAt packet 14 % 16) + 13)).testBit 3 = true)
    (hfin : (byteAt packet (14 + 4 * (byteAt packet 14 % 16) + 13)).testBit 0 = true) :
    (analyse header packet verbose c).cnt_xmasscan = (c.cnt_xmasscan + 1) % 2 ^ 32 ∧
    (c.cnt_xmasscan + 1 < 2 ^ 32 →
      (analyse header packet verbose c).cnt_xmasscan = c.cnt_xmasscan + 1) := by
  have hflags : xmasFlags packet := by
    unfold xmasFlags tcphdr_psh tcphdr_urg tcphdr_fin tcpOffset iphdr_ihl ETH_HLEN
    exact ⟨(testBit_three_iff _).1 hpsh, (testBit_five_iff _).1 hurg,
      (testBit_zero_iff _).1 hfin⟩
  have h : (analyse header packet verbose c).cnt_xmasscan = incr c.cnt_xmasscan := by
    rw [analyse_eq, eth_type_eq, htype]
    simp [hflags]
  exact ⟨h, fun hlt => h.trans (incr_of_lt hlt)⟩

/-- Witness for C1: the 54-byte frame with IHL 5, data offset 5, destination
port 443 and flags URG, PSH, FIN takes `cnt_xmasscan` from 0 to 1; the four
counters end as one Xmas scan, no blacklist hit, one packet. -/
theorem xmas_scan_counted_witness :
    (analyse ⟨0, 0, 54, 54⟩ xmasFrame 0 Counters.zero).cnt_xmasscan = 0 + 1 ∧
    analyse ⟨0, 0, 54, 54⟩ xmasFrame 0 Counters.zero
      = { cnt_xmasscan := 1, cnt_arppois := 0, cnt_blacklisturl := 0, cnt_pkts := 1 } :=
  ⟨(xmas_scan_counted ⟨0, 0, 54, 54⟩ xmasFrame 0 Counters.zero
    (by decide) (by decide) (by decide) (by decide)).2 (by decide), by decide⟩

/-- C2: for every frame with Ethernet type 0x0806, if the ARP operation code
that `analyse` reads is 2 then one call performs `cnt_arppois++` exactly once
(plus 1 as a 32-bit unsigned, plus 1 exactly below the maximum), and if it is 1
then `cnt_arppois` is unchanged. -/
theorem arp_reply_counted (header : pcap_pkthdr) (packet : List Nat) (verbose : Int)
    (c : Counters)
    (htype : byteAt packet 12 * 256 + byteAt packet 13 = 0x0806) :
    (ntohs (arp_op packet 14) = 2 →
      (analyse header packet verbose c).cnt_arppois = (c.cnt_arppois + 1) % 2 ^ 32 ∧
      (c.cnt_arppois + 1 < 2 ^ 32 →
        (analyse header packet verbose c).cnt_arppois = c.cnt_arppois + 1)) ∧
    (ntohs (arp_op packet 14) = 1 →
      (analyse header packet verbose c).cnt_arppois = c.cnt_arppois) := by
  have h : (analyse header packet verbose c).cnt_arppois =
      if ntohs (arp_op packet 14) = 2 then incr c.cnt_arppois else c.cnt_arppois := by
    rw [analyse_eq, eth_type_eq, htype]
    simp
  refine ⟨fun h2 => ?_, fun h1 => ?_⟩
  · rw [h, if_pos h2]
    exact ⟨rfl, fun hlt => incr_of_lt hlt⟩
  · rw [h, if_neg (by omega)]

/-- Witness for C2: an ARP reply takes `cnt_arppois` from 0 to 1 and an ARP
request leaves it at 0. -/
theorem arp_reply_counted_witness :
    (analyse ⟨0, 0, 42, 42⟩ arpReplyFrame 0 Counters.zero).cnt_arppois = 0 + 1 ∧
    (analyse ⟨0, 0, 42, 42⟩ arpRequestFrame 0 Counters.zero).cnt_arppois = 0 :=
  ⟨((arp_reply_counted ⟨0, 0, 42, 42⟩ arpReplyFrame 0 Counters.zero (by decide)).1
      (by decide)).2 (by decide),
   (arp_reply_counted ⟨0, 0, 42, 42⟩ arpRequestFrame 0 Counters.zero (by decide)).2
      (by decide)⟩

/-- C4: for every frame whose Ethernet type (frame bytes 12-13, big-endian) is
neither 0x0806 nor 0x0800, `analyse` leaves all four counters unchanged,
whatever the rest of the frame holds. -/
theorem unrecognised_type_ignored (header : pcap_pkthdr) (packet : List Nat)
    (verbose : Int) (c : Counters)
    (harp : byteAt packet 12 * 256 + byteAt packet 13 ≠ 0x0806)
    (hip : byteAt packet 12 * 256 + byteAt packet 13 ≠ 0x0800) :
    analyse header packet verbose c = c :=
  analyse_other header packet verbose c (by rw [eth_type_eq]; exact harp)
    (by rw [eth_type_eq]; exact hip)

/-- Witness for C4: a frame of Ethernet type 0x86DD changes no counter. -/
theorem unrecognised_type_ignored_witness :
    analyse ⟨0, 0, 14, 14⟩ ipv6Frame 1 ⟨3, 5, 7, 11⟩ = ⟨3, 5, 7, 11⟩ :=
  unrecognised_type_ignored ⟨0, 0, 14, 14⟩ ipv6Frame 1 ⟨3, 5, 7, 11⟩
    (by decide) (by decide)

/-- C5, counterexample: the IPv4 frame with IHL 5 whose 36 captured bytes end two
bytes into the TCP header is not rejected: `analyse` changes the counters. -/
theorem truncated_frame_counted :
    byteAt truncatedFrame 12 * 256 + byteAt truncatedFrame 13 = 0x0800 ∧
    truncatedFrame.length = 14 + 4 * (byteAt truncatedFrame 14 % 16) + 2 ∧
    (⟨0, 0, 36, 54⟩ : pcap_pkthdr).caplen = 14 + 4 * (byteAt truncatedFrame 14 % 16) + 2 ∧
    analyse ⟨0, 0, 36, 54⟩ truncatedFrame 0 Counters.zero ≠ Counters.zero ∧
    (analyse ⟨0, 0, 36, 54⟩ truncatedFrame 0 Counters.zero).cnt_pkts = 1 := by
  decide

/-- C5, amended: for every IPv4 frame whose `caplen` ends two bytes into the TCP
header, `analyse` performs `cnt_pkts++` exactly once, and its effect on the four
counters is the one it has under any other capture header: `caplen` is never
consulted and no decode failure is signalled. -/
theorem truncated_frame_still_analysed (header : pcap_pkthdr) (packet : List Nat)
    (verbose : Int) (c : Counters)
    (htype : byteAt packet 12 * 256 + byteAt packet 13 = 0x0800)
    (_hcap : header.caplen = 14 + 4 * (byteAt packet 14 % 16) + 2) :
    (analyse header packet verbose c).cnt_pkts = (c.cnt_pkts + 1) % 2 ^ 32 ∧
    (c.cnt_pkts + 1 < 2 ^ 32 →
      (analyse header packet verbose c).cnt_pkts = c.cnt_pkts + 1) ∧
    ∀ header' : pcap_pkthdr,
      analyse header packet verbose c = analyse header' packet verbose c := by
  have h : (analyse header packet verbose c).cnt_pkts = incr c.cnt_pkts := by
    rw [analyse_cnt_pkts, eth_type_eq, htype]; simp
  exact ⟨h, fun hlt => h.trans (incr_of_lt hlt), fun _ => rfl⟩

/-- Witness for C5 amended, at the 36-byte truncated frame. -/
theorem truncated_frame_still_analysed_witness :
    (analyse ⟨0, 0, 36, 54⟩ truncatedFrame 0 Counters.zero).cnt_pkts = 0 + 1 :=
  (truncated_frame_still_analysed ⟨0, 0, 36, 54⟩ truncatedFrame 0 Counters.zero
    (by decide) (by decide)).2.1 (by decide)

/-- C8: for every finite sequence of frames analysed one after another from
all counters at zero, if the number of frames whose Ethernet type is 0x0806 or
0x0800 is below 2^32 then the final `cnt_pkts` equals that number. -/
theorem cnt_pkts_counts_recognised (verbose : Int) (frames : List Frame)
    (hcount : frames.countP (fun f => recognisedType f.packet) < 2 ^ 32) :
    (analyse_frames verbose frames Counters.zero).cnt_pkts =
      frames.countP (fun f => recognisedType f.packet) := by
  have hmod := analyse_frames_cnt_pkts verbose frames Counters.zero
  have hlt : ∀ (fs : List Frame) (c : Counters), c.cnt_pkts < 2 ^ 32 →
      (analyse_frames verbose fs c).cnt_pkts < 2 ^ 32 := by
    intro fs
    induction fs with
    | nil => intro c hc; simpa [analyse_frames] using hc
    | cons f fs ih =>
      intro c hc
      have step : analyse_frames verbose (f :: fs) c =
          analyse_frames verbose fs (analyse f.header f.packet verbose c) := rfl
      rw [step]
      apply ih
      rw [analyse_cnt_pkts]
      split
      · exact Nat.mod_lt _ (by decide)
      · exact hc
  have h0 := hlt frames Counters.zero (by decide)
  rw [Nat.mod_eq_of_lt h0] at hmod
  rw [hmod]
  simp only [Counters.zero, Nat.zero_add]
  exact Nat.mod_eq_of_lt hcount

/-- Witness for C8: an IPv4 frame, an IPv6 frame and an ARP frame give 2. -/
theorem cnt_pkts_counts_recognised_witness :
    (analyse_frames 0 [⟨⟨0, 0, 54, 54⟩, xmasFrame⟩, ⟨⟨0, 0, 14, 14⟩, ipv6Frame⟩,
      ⟨⟨0, 0, 42, 42⟩, arpReplyFrame⟩] Counters.zero).cnt_pkts = 2 :=
  cnt_pkts_counts_recognised 0 [⟨⟨0, 0, 54, 54⟩, xmasFrame⟩, ⟨⟨0, 0, 14, 14⟩, ipv6Frame⟩,
      ⟨⟨0, 0, 42, 42⟩, arpReplyFrame⟩] (by decide)

/-- C3, counterexample: both halves of the claim fail.  In `nulFrame` the
captured payload of a port-80 IPv4/TCP frame contains the blacklisted bytes
after a zero byte, and `cnt_blacklisturl` stays 0.  In `overrunFrame` the 73
captured bytes hold a payload that contains `"Host: www.other.com"` and not the
blacklisted bytes, and `cnt_blacklisturl` becomes 1, because the search runs on
into the memory behind the captured bytes. -/
theorem blacklist_search_counterexample :
    (byteAt nulFrame 12 * 256 + byteAt nulFrame 13 = 0x0800 ∧
      byteAt nulFrame 23 = 6 ∧
      byteAt nulFrame (tcpOffset nulFrame + 2) * 256
        + byteAt nulFrame (tcpOffset nulFrame + 3) = 80 ∧
      blacklisted <:+: capturedPayload ⟨0, 0, 74, 74⟩ nulFrame ∧
      (analyse ⟨0, 0, 74, 74⟩ nulFrame 0 Counters.zero).cnt_blacklisturl = 0) ∧
    (byteAt overrunFrame 12 * 256 + byteAt overrunFrame 13 = 0x0800 ∧
      byteAt overrunFrame 23 = 6 ∧
      byteAt overrunFrame (tcpOffset overrunFrame + 2) * 256
        + byteAt overrunFrame (tcpOffset overrunFrame + 3) = 80 ∧
      (⟨0, 0, 73, 73⟩ : pcap_pkthdr).caplen ≤ overrunFrame.length ∧
      otherHost <:+: capturedPayload ⟨0, 0, 73, 73⟩ overrunFrame ∧
      ¬ blacklisted <:+: capturedPayload ⟨0, 0, 73, 73⟩ overrunFrame ∧
      (analyse ⟨0, 0, 73, 73⟩ overrunFrame 0 Counters.zero).cnt_blacklisturl = 1) := by
  decide

/-- C3, amended: for every IPv4 frame with TCP destination port 80, `analyse`
performs `cnt_blacklisturl++` exactly once if the zero-terminated string that
starts at byte T + 4*doff of memory contains `"Host: www.bbc.co.uk"`, and leaves
`cnt_blacklisturl` unchanged otherwise.  Hence, for a frame of proper bytes: a
captured payload that contains the sequence with no zero byte in front of it is
counted; and a captured payload that contains a zero byte and does not contain
the sequence (one with `"Host: www.other.com"`, say) is not counted. -/
theorem blacklist_counted_iff_in_cstring (header : pcap_pkthdr) (packet : List Nat)
    (verbose : Int) (c : Counters)
    (htype : byteAt packet 12 * 256 + byteAt packet 13 = 0x0800)
    (hport : byteAt packet (tcpOffset packet + 2) * 256
      + byteAt packet (tcpOffset packet + 3) = 80) :
    (blacklisted <:+: cstring (packet.drop (payloadOffset packet)) →
      (analyse header packet verbose c).cnt_blacklisturl
          = (c.cnt_blacklisturl + 1) % 2 ^ 32 ∧
      (c.cnt_blacklisturl + 1 < 2 ^ 32 →
        (analyse header packet verbose c).cnt_blacklisturl = c.cnt_blacklisturl + 1)) ∧
    (¬ blacklisted <:+: cstring (packet.drop (payloadOffset packet)) →
      (analyse header packet verbose c).cnt_blacklisturl = c.cnt_blacklisturl) ∧
    ((∀ b ∈ packet, b < 256) →
      (∀ pre post : List Nat,
        capturedPayload header packet = pre ++ blacklisted ++ post → 0 ∉ pre →
        (analyse header packet verbose c).cnt_blacklisturl
          = (c.cnt_blacklisturl + 1) % 2 ^ 32) ∧
      (0 ∈ capturedPayload header packet →
        ¬ blacklisted <:+: capturedPayload header packet →
        (analyse header packet verbose c).cnt_blacklisturl = c.cnt_blacklisturl)) := by
  have h := analyse_cnt_blacklisturl header packet verbose c
    (by rw [eth_type_eq]; exact htype)
  have hp : ntohs (tcphdr_dest packet (tcpOffset packet)) = 80 := by
    unfold tcphdr_dest; rw [ntohs_load16]; exact hport
  simp only [hp, true_and] at h
  have hyes : blacklisted <:+: cstring (packet.drop (payloadOffset packet)) →
      (analyse header packet verbose c).cnt_blacklisturl
        = (c.cnt_blacklisturl + 1) % 2 ^ 32 := fun hin => by rw [h, if_pos hin]; rfl
  have hno : ¬ blacklisted <:+: cstring (packet.drop (payloadOffset packet)) →
      (analyse header packet verbose c).cnt_blacklisturl = c.cnt_blacklisturl :=
    fun hout => by rw [h, if_neg hout]
  refine ⟨fun hin => ⟨hyes hin, fun hlt => (hyes hin).trans (Nat.mod_eq_of_lt hlt)⟩,
    hno, fun hbytes => ?_⟩
  obtain ⟨rest, hrest⟩ := capturedPayload_prefix header packet
  have hdrop : ∀ b ∈ packet.drop (payloadOffset packet), b < 256 :=
    fun b hb => hbytes b (List.mem_of_mem_drop hb)
  have hcs := cstring_of_bytes _ hdrop
  constructor
  · intro pre post hpay hpre
    apply hyes
    rw [hcs, ← hrest, hpay]
    have e1 : pre ++ blacklisted ++ post ++ rest
        = pre ++ (blacklisted ++ (post ++ rest)) := by simp
    have hprepos : ∀ a ∈ pre, (fun b : Nat => b != 0) a = true := by
      intro a ha
      have : a ≠ 0 := fun e => hpre (e ▸ ha)
      simpa using this
    have hblpos : ∀ a ∈ blacklisted, (fun b : Nat => b != 0) a = true := by
      intro a ha
      simpa using blacklisted_nonzero a ha
    rw [e1, List.takeWhile_append_of_pos hprepos, List.takeWhile_append_of_pos hblpos]
    exact ⟨pre, List.takeWhile (fun b => b != 0) (post ++ rest), by simp⟩
  · intro hzero hnot
    apply hno
    intro hin
    apply hnot
    rw [hcs, ← hrest,
      takeWhile_append_of_stop _ _ _ ⟨0, hzero, by simp⟩] at hin
    exact hin.trans (List.takeWhile_prefix _).isInfix

/-- Witness for C3 amended: the port-80 frame whose payload is the blacklisted
host line takes `cnt_blacklisturl` from 0 to 1. -/
theorem blacklist_counted_iff_in_cstring_witness :
    (analyse ⟨0, 0, 73, 73⟩ bbcFrame 0 Counters.zero).cnt_blacklisturl = 0 + 1 ∧
    (analyse ⟨0, 0, 74, 74⟩ otherFrame 0 Counters.zero).cnt_blacklisturl = 0 :=
  ⟨((blacklist_counted_iff_in_cstring ⟨0, 0, 73, 73⟩ bbcFrame 0 Counters.zero
      (by decide) (by decide)).1 (by decide)).2 (by decide),
   ((blacklist_counted_iff_in_cstring ⟨0, 0, 74, 74⟩ otherFrame 0 Counters.zero
      (by decide) (by decide)).2.2 (by decide)).2 (by decide) (by decide)⟩

/-- C7: the work queue is strictly FIFO with no loss and no duplication.  For
every heap in which the queue at `inQueue` holds the sequence `q`, and every
list `xs` of items, calling `addData` for the items of `xs` in order and then
`removeHead` `|q| + |xs|` times returns, the removed items are exactly `q`
followed by `xs`, and the queue is left empty with a `NULL` head. -/
theorem queue_fifo (hp : Heap) (inQueue : Nat) (q xs : List arg_struct)
    (hq : QueueHolds hp inQueue q) :
    ∃ hp1 hp2, addAll inQueue xs hp = some hp1 ∧
      removeN inQueue (q.length + xs.length) hp1 = some (q ++ xs, hp2) ∧
      QueueHolds hp2 inQueue [] ∧ hp2.list inQueue = some { head := NULL } := by
  obtain ⟨hp1, hadd, hq1⟩ := addAll_spec xs hq
  obtain ⟨hp2, hrem, hq2⟩ := removeN_spec (q ++ xs) hq1
  rw [List.length_append] at hrem
  exact ⟨hp1, hp2, hadd, hrem, hq2, hq2.head_null⟩

/-- Witness for C7: a queue holding `⟨7, 8⟩`, two more items added, three
removals. -/
theorem queue_fifo_witness :
    ∃ hp1 hp2, addAll 1 [⟨10, 11⟩, ⟨12, 13⟩] oneItemHeap = some hp1 ∧
      removeN 1 (1 + 2) hp1 = some ([⟨7, 8⟩, ⟨10, 11⟩, ⟨12, 13⟩], hp2) ∧
      QueueHolds hp2 1 [] ∧ hp2.list 1 = some { head := NULL } :=
  queue_fifo oneItemHeap 1 [⟨7, 8⟩] [⟨10, 11⟩, ⟨12, 13⟩]
    ⟨{ head := 2 }, [(2, ⟨7, 8⟩)], rfl,
      IsList.cons (e := { next := NULL, data := ⟨7, 8⟩ }) rfl IsList.nil, rfl⟩

/-- C9, the code at the failing input: on the first call (`i = 0`) the queue
block comes from `malloc` and its `head` is never written.  When the block
holds a stale non-null value, `addData` follows it and the call has no defined
result; only when the block happens to hold `NULL` does the call return. -/
theorem first_dispatch_stale_head :
    (Globals.init callerHeap).i = 0 ∧
    ValidCall (Globals.init callerHeap).heap (1, 2, 0) ∧
    dispatch 0xdead 1 2 0 (Globals.init callerHeap) = none ∧
    (dispatch NULL 1 2 0 (Globals.init callerHeap)).isSome = true :=
  ⟨rfl, ⟨⟨0, 0, 54, 54⟩, xmasFrame, rfl, rfl, by decide⟩, by decide, by decide⟩

/-- C10: over every sequence of n >= 1 calls of `dispatch` from the initial
state, `initThreads` runs exactly once, in the first call.  The guard `i` is 0
before the first call; after the calls `i` is non-zero, exactly the ten
workers of one `initThreads` run exist, and `queue` is the block allocated in
the first call; from a state with `i` non-zero a call changes neither `i`, nor
the workers, nor `queue`.  The calls do return when their arguments are usable
and the fresh queue block holds `NULL`. -/
theorem init_threads_runs_once (junk : Nat) (heap : Heap)
    (calls : List (Nat × Nat × Int)) (hn : calls ≠ []) :
    (Globals.init heap).i = 0 ∧
    (∀ s, dispatchAll junk calls (Globals.init heap) = some s →
      s.i ≠ 0 ∧ s.threads = List.range 10 ∧ s.queue = heap.length + 1) ∧
    (∀ (s s' : Globals) (c : Nat × Nat × Int), s.i ≠ 0 →
      dispatch junk c.1 c.2.1 c.2.2 s = some s' →
      s'.i = s.i ∧ s'.threads = s.threads ∧ s'.queue = s.queue) ∧
    (junk = NULL → (∀ c ∈ calls, ValidCall heap c) →
      ∃ s, dispatchAll junk calls (Globals.init heap) = some s) := by
  refine ⟨rfl, ?_, ?_, ?_⟩
  · intro s hs
    cases calls with
    | nil => exact absurd rfl hn
    | cons c cs =>
      simp only [dispatchAll] at hs
      split at hs
      · simp at hs
      · next s1 hs1 =>
        have hg := dispatch_globals hs1
        rw [dispatchInit_of_eq junk c.2.2 (Globals.init heap) rfl] at hg
        obtain ⟨g1, _, g3, g4⟩ := hg
        simp only at g1 g3 g4
        have hi1 : s1.i ≠ 0 := by rw [g1]; decide
        obtain ⟨k1, _, k3, k4⟩ := dispatchAll_keeps_init cs hi1 hs
        refine ⟨by rw [k1]; exact hi1, ?_, ?_⟩
        · rw [k4, g4]; simp [Globals.init]
        · rw [k3, g3]; simp [Globals.init]
  · intro s s' c hi hs
    obtain ⟨h1, _, h3, h4⟩ := dispatch_keeps_init hi hs
    exact ⟨h1, h4, h3⟩
  · intro hjunk hvalid
    subst hjunk
    cases calls with
    | nil => exact absurd rfl hn
    | cons c cs =>
      obtain ⟨hd, src, hh, hb, hlen⟩ := hvalid c (List.mem_cons_self _ _)
      obtain ⟨s1, hs1, hi1, _, _, _, hq1, _, _, hframe⟩ :=
        dispatch_first_null c.1 c.2.1 c.2.2 (Globals.init heap) hd src rfl hh hb hlen
      obtain ⟨s', hs'⟩ := @dispatchAll_returns NULL cs s1 _
        (by rw [hi1]; decide) hq1
        (fun c' hc' => (hvalid c' (List.mem_cons_of_mem _ hc')).preserved hframe)
      exact ⟨s', by simp only [dispatchAll, hs1]; exact hs'⟩

/-- Witness for C10: two submissions of the caller's frame from the initial
state return, with `i` non-zero and exactly ten workers. -/
theorem init_threads_runs_once_witness :
    ∃ s, dispatchAll NULL [(1, 2, 0), (1, 2, 1)] (Globals.init callerHeap) = some s ∧
      s.i ≠ 0 ∧ s.threads = List.range 10 ∧ s.queue = callerHeap.length + 1 :=
  have h := init_threads_runs_once NULL callerHeap [(1, 2, 0), (1, 2, 1)] (by decide)
  have hv : ∀ c ∈ [((1 : Nat), (2 : Nat), (0 : Int)), (1, 2, 1)], ValidCall callerHeap c := by
    intro c hc
    simp only [List.mem_cons, List.mem_singleton, List.not_mem_nil, or_false] at hc
    rcases hc with rfl | rfl <;> exact ⟨⟨0, 0, 54, 54⟩, xmasFrame, rfl, rfl, by decide⟩
  let ⟨s, hs⟩ := h.2.2.2 rfl hv
  ⟨s, hs, h.2.1 s hs⟩

/-- C11: counter updates are order-independent.  For every counter state and
every two frames, analysing one and then the other gives the same four
counters as the opposite order; hence every permutation of a finite list of
frames gives the same final counters. -/
theorem counters_order_independent :
    (∀ (c : Counters) (a b : Frame) (va vb : Int),
      analyse b.header b.packet vb (analyse a.header a.packet va c) =
        analyse a.header a.packet va (analyse b.header b.packet vb c)) ∧
    (∀ (verbose : Int) (l₁ l₂ : List Frame) (c : Counters), l₁.Perm l₂ →
      analyse_frames verbose l₁ c = analyse_frames verbose l₂ c) := by
  refine ⟨fun c a b va vb => analyse_comm _ _ _ _ _ _ c, ?_⟩
  intro verbose l₁ l₂ c hperm
  unfold analyse_frames
  exact hperm.foldl_eq' (fun x _ y _ z => analyse_comm _ _ _ _ _ _ z) c

/-- Witness for C11: an Xmas frame, an ARP reply and a blacklisted request in
two orders, from counters close to the 32-bit maximum. -/
theorem counters_order_independent_witness :
    analyse_frames 0 [⟨⟨0, 0, 54, 54⟩, xmasFrame⟩, ⟨⟨0, 0, 42, 42⟩, arpReplyFrame⟩,
        ⟨⟨0, 0, 73, 73⟩, bbcFrame⟩] ⟨4294967295, 0, 7, 4294967294⟩ =
      analyse_frames 0 [⟨⟨0, 0, 42, 42⟩, arpReplyFrame⟩, ⟨⟨0, 0, 54, 54⟩, xmasFrame⟩,
        ⟨⟨0, 0, 73, 73⟩, bbcFrame⟩] ⟨4294967295, 0, 7, 4294967294⟩ :=
  counters_order_independent.2 0 _ _ _ (List.Perm.swap _ _ _)

/-- C12, counterexample: with `cnt_xmasscan` at 4294967295, a value of a 32-bit
unsigned counter, one call of `analyse` on the Xmas frame leaves it at 0: not
equal, not one greater, and smaller. -/
theorem counter_wraps_at_max :
    (4294967295 : Nat) < 2 ^ 32 ∧
    (analyse ⟨0, 0, 54, 54⟩ xmasFrame 0 ⟨4294967295, 0, 0, 0⟩).cnt_xmasscan = 0 ∧
    ¬ ((analyse ⟨0, 0, 54, 54⟩ xmasFrame 0 ⟨4294967295, 0, 0, 0⟩).cnt_xmasscan = 4294967295 ∨
       (analyse ⟨0, 0, 54, 54⟩ xmasFrame 0 ⟨4294967295, 0, 0, 0⟩).cnt_xmasscan
         = 4294967295 + 1) ∧
    (analyse ⟨0, 0, 54, 54⟩ xmasFrame 0 ⟨4294967295, 0, 0, 0⟩).cnt_xmasscan < 4294967295 := by
  decide

/-- C12, amended: every counter is updated at most once per frame.  For every
frame and every state of the four counters, after one call of `analyse` each
counter is its old value or its old value plus 1 modulo 2^32; for a counter
below 4294967295 that is the old value or exactly one more, and never less. -/
theorem counters_step (header : pcap_pkthdr) (packet : List Nat) (verbose : Int)
    (c : Counters) :
    atMostOneIncrement c.cnt_pkts (analyse header packet verbose c).cnt_pkts ∧
    atMostOneIncrement c.cnt_xmasscan (analyse header packet verbose c).cnt_xmasscan ∧
    atMostOneIncrement c.cnt_arppois (analyse header packet verbose c).cnt_arppois ∧
    atMostOneIncrement c.cnt_blacklisturl
      (analyse header packet verbose c).cnt_blacklisturl := by
  rw [analyse_fields]
  exact ⟨atMostOneIncrement_ite _ _, atMostOneIncrement_ite _ _,
    atMostOneIncrement_ite _ _, atMostOneIncrement_ite _ _⟩

/-- Witness for C12 amended: from counters below the maximum, the Xmas frame
raises `cnt_xmasscan` and `cnt_pkts` by one and leaves the other two. -/
theorem counters_step_witness :
    ((analyse ⟨0, 0, 54, 54⟩ xmasFrame 0 ⟨3, 5, 7, 11⟩).cnt_xmasscan = 3 ∨
      (analyse ⟨0, 0, 54, 54⟩ xmasFrame 0 ⟨3, 5, 7, 11⟩).cnt_xmasscan = 3 + 1) ∧
    3 ≤ (analyse ⟨0, 0, 54, 54⟩ xmasFrame 0 ⟨3, 5, 7, 11⟩).cnt_xmasscan :=
  (counters_step ⟨0, 0, 54, 54⟩ xmasFrame 0 ⟨3, 5, 7, 11⟩).2.1.2 (by decide)

/-- C13, counterexample: the rule does not test frame bytes 34-35.  The ARP
reply frame has 0x0403 there and is counted; the ARP request frame with `00 02`
there is not counted.  What is tested is the value of bytes 20-21. -/
theorem arp_op_not_at_34 :
    (byteAt arpReplyFrame 12 * 256 + byteAt arpReplyFrame 13 = 0x0806 ∧
      byteAt arpReplyFrame 34 * 256 + byteAt arpReplyFrame 35 ≠ 2 ∧
      (analyse ⟨0, 0, 42, 42⟩ arpReplyFrame 0 Counters.zero).cnt_arppois = 1) ∧
    (byteAt arpRequestFrame2 12 * 256 + byteAt arpRequestFrame2 13 = 0x0806 ∧
      byteAt arpRequestFrame2 34 * 256 + byteAt arpRequestFrame2 35 = 2 ∧
      (analyse ⟨0, 0, 42, 42⟩ arpRequestFrame2 0 Counters.zero).cnt_arppois = 0) := by
  decide

/-- C13, amended: for every ARP frame, the operation code that the rule tests
is the 2-byte big-endian value that follows, from byte 14, the hardware type
(2 bytes), the protocol type (2 bytes) and the two address lengths (1 byte
each): the value of frame bytes 20-21.  The four addresses come after it. -/
theorem arp_op_at_20 (header : pcap_pkthdr) (packet : List Nat) (verbose : Int)
    (c : Counters)
    (htype : byteAt packet 12 * 256 + byteAt packet 13 = 0x0806) :
    ntohs (arp_op packet 14) = byteAt packet 20 * 256 + byteAt packet 21 ∧
    (analyse header packet verbose c).cnt_arppois =
      if byteAt packet 20 * 256 + byteAt packet 21 = 2 then incr c.cnt_arppois
      else c.cnt_arppois := by
  refine ⟨arp_op_eq packet, ?_⟩
  rw [analyse_fields, eth_type_eq, htype, arp_op_eq]
  simp

/-- Witness for C13 amended, at the two ARP frames. -/
theorem arp_op_at_20_witness :
    (analyse ⟨0, 0, 42, 42⟩ arpReplyFrame 0 Counters.zero).cnt_arppois
      = (if byteAt arpReplyFrame 20 * 256 + byteAt arpReplyFrame 21 = 2
          then incr Counters.zero.cnt_arppois else Counters.zero.cnt_arppois) ∧
    (analyse ⟨0, 0, 42, 42⟩ arpRequestFrame2 0 Counters.zero).cnt_arppois
      = (if byteAt arpRequestFrame2 20 * 256 + byteAt arpRequestFrame2 21 = 2
          then incr Counters.zero.cnt_arppois else Counters.zero.cnt_arppois) :=
  ⟨(arp_op_at_20 ⟨0, 0, 42, 42⟩ arpReplyFrame 0 Counters.zero (by decide)).2,
   (arp_op_at_20 ⟨0, 0, 42, 42⟩ arpRequestFrame2 0 Counters.zero (by decide)).2⟩

/-- C14: two first calls of `dispatch` that run at the same time lose a frame.
Both callers pass the unlocked test `i == 0` of line 109 before either runs
line 111, so `initThreads` runs twice: twenty workers are created, `i` ends at
2, and the second call replaces the queue at address 5, which keeps the ARP
reply, by a new queue at address 9.  The workers drain only the new queue: after
any number of passes `cnt_pkts` is 1, although both submitted frames have a
recognised Ethernet type.  The same two calls one after the other give 2. -/
theorem racing_first_calls_lose_frame :
    (recognisedType arpReplyFrame ∧ recognisedType xmasFrame) ∧
    (racingFirstCalls NULL (1, 2, 0) (3, 4, 0) (Globals.init twoFrameHeap)).map
        (fun s => (s.i, s.queue, s.threads.length, s.heap.list 5, s.heap.list 9))
      = some (2, 9, 20, some { head := 8 }, some { head := 12 }) ∧
    ((racingFirstCalls NULL (1, 2, 0) (3, 4, 0) (Globals.init twoFrameHeap)).bind
        (fun s => workerPasses [] 1 s Counters.zero)).map
        (fun r => (r.1.heap.list 5, r.1.heap.list 9, r.2.cnt_pkts))
      = some (some { head := 8 }, some { head := NULL }, 1) ∧
    ((racingFirstCalls NULL (1, 2, 0) (3, 4, 0) (Globals.init twoFrameHeap)).bind
        (fun s => workerPasses [] 20 s Counters.zero)).map
        (fun r => (r.1.heap.list 5, r.1.heap.list 9, r.2.cnt_pkts))
      = some (some { head := 8 }, some { head := NULL }, 1) ∧
    ((dispatchAll NULL [(1, 2, 0), (3, 4, 0)] (Globals.init twoFrameHeap)).bind
        (fun s => workerPasses [] 20 s Counters.zero)).map
        (fun r => (r.1.threads.length, r.2.cnt_pkts))
      = some (10, 2) := by
  refine ⟨by decide, ?_, ?_, ?_, ?_⟩ <;> decide

/-- C15: for every IPv4 frame, whatever its IHL (0..15) and data offset
(0..15), `analyse` places the TCP header at byte T = 14 + 4*IHL, with IHL the
low nibble of frame byte 14; it tests the big-endian value of bytes T+2..T+3
as the destination port and bits 0x01 (FIN), 0x08 (PSH), 0x20 (URG) of byte
T+13 as the flags, and it starts the blacklist search at byte P = T + 4*doff,
with doff the high nibble of byte T+12.  These are also the bytes it reads. -/
theorem ipv4_tcp_layout (header : pcap_pkthdr) (packet : List Nat) (verbose : Int)
    (c : Counters) (T P : Nat)
    (htype : byteAt packet 12 * 256 + byteAt packet 13 = 0x0800)
    (hT : T = 14 + 4 * (byteAt packet 14 % 16))
    (hP : P = T + 4 * (byteAt packet (T + 12) / 16)) :
    byteAt packet 14 % 16 ≤ 15 ∧ byteAt packet (T + 12) / 16 ≤ 15 ∧
    tcpOffset packet = T ∧ payloadOffset packet = P ∧
    (analyse header packet verbose c).cnt_xmasscan =
      (if (byteAt packet (T + 13)).testBit 5 = true ∧
          (byteAt packet (T + 13)).testBit 3 = true ∧
          (byteAt packet (T + 13)).testBit 0 = true
        then incr c.cnt_xmasscan else c.cnt_xmasscan) ∧
    (analyse header packet verbose c).cnt_blacklisturl =
      (if byteAt packet (T + 2) * 256 + byteAt packet (T + 3) = 80 ∧
          (strstr (packet.drop P) blacklisted).isSome = true
        then incr c.cnt_blacklisturl else c.cnt_blacklisturl) ∧
    14 ∈ analyse_reads packet verbose ∧ T + 2 ∈ analyse_reads packet verbose ∧
    T + 3 ∈ analyse_reads packet verbose ∧ T + 13 ∈ analyse_reads packet verbose ∧
    (byteAt packet (T + 2) * 256 + byteAt packet (T + 3) = 80 →
      T + 12 ∈ analyse_reads packet verbose ∧ P ∈ analyse_reads packet verbose) := by
  have hb14 := byteAt_lt packet 14
  have hb12 := byteAt_lt packet (T + 12)
  have hTo : tcpOffset packet = T := by
    rw [hT]; rfl
  have hPo : payloadOffset packet = P := by
    unfold payloadOffset tcphdr_doff
    rw [hTo, hP]
  have htype' : ntohs (ether_type packet) = 2048 := by rw [eth_type_eq]; exact htype
  have hx := xmasFlags_iff packet
  rw [← hT] at hx
  have hport := tcp_dest_eq packet
  rw [hTo] at hport
  have hspan : 1 ≤ strstr_extent (packet.drop P) := strstr_extent_pos _
  refine ⟨by omega, by omega, hTo, hPo, ?_, ?_, ?_, ?_, ?_, ?_, ?_⟩
  · rw [analyse_fields]
    simp only [htype', true_and, hx]
  · rw [analyse_fields]
    simp only [htype', true_and, blacklistHit, hport, hTo, hPo]
  · simp [analyse_reads, htype']
  · simp [analyse_reads, htype', hTo]
  · simp [analyse_reads, htype', hTo]
  · simp [analyse_reads, htype', hTo]
  · intro h80
    have h80' : ntohs (tcphdr_dest packet T) = 80 := by rw [hport]; exact h80
    constructor
    · simp [analyse_reads, htype', hTo, h80']
    · have hmem : P ∈ List.range' P (strstr_extent (packet.drop P)) := by
        rw [List.mem_range'_1]; omega
      simp only [analyse_reads, htype', hTo, hPo, h80', if_true, List.mem_append]
      exact Or.inr (Or.inr (Or.inr hmem))

/-- Witness for C15: the port-80 frame with IHL 5 and data offset 5 has T = 34
and P = 54. -/
theorem ipv4_tcp_layout_witness :
    tcpOffset bbcFrame = 34 ∧ payloadOffset bbcFrame = 54 ∧
    47 ∈ analyse_reads bbcFrame 0 ∧ 54 ∈ analyse_reads bbcFrame 0 :=
  have h := ipv4_tcp_layout ⟨0, 0, 73, 73⟩ bbcFrame 0 Counters.zero 34 54
    (by decide) (by decide) (by decide)
  ⟨h.2.2.1, h.2.2.2.1, h.2.2.2.2.2.2.2.2.2.1, (h.2.2.2.2.2.2.2.2.2.2 (by decide)).2⟩

/-- C18: the Xmas rule never over-fires.  For every frame, if one call of
`analyse` changes `cnt_xmasscan` then the Ethernet type is 0x0800 and bits URG
(0x20), PSH (0x08) and FIN (0x01) of the byte at 14 + 4*IHL + 13 are all set;
and if the type is not 0x0800 or one of the three bits is clear,
`cnt_xmasscan` is unchanged. -/
theorem xmas_never_overfires (header : pcap_pkthdr) (packet : List Nat) (verbose : Int)
    (c : Counters) :
    ((analyse header packet verbose c).cnt_xmasscan ≠ c.cnt_xmasscan →
      byteAt packet 12 * 256 + byteAt packet 13 = 0x0800 ∧
      (byteAt packet (14 + 4 * (byteAt packet 14 % 16) + 13)).testBit 5 = true ∧
      (byteAt packet (14 + 4 * (byteAt packet 14 % 16) + 13)).testBit 3 = true ∧
      (byteAt packet (14 + 4 * (byteAt packet 14 % 16) + 13)).testBit 0 = true) ∧
    (byteAt packet 12 * 256 + byteAt packet 13 ≠ 0x0800 ∨
      (byteAt packet (14 + 4 * (byteAt packet 14 % 16) + 13)).testBit 5 = false ∨
      (byteAt packet (14 + 4 * (byteAt packet 14 % 16) + 13)).testBit 3 = false ∨
      (byteAt packet (14 + 4 * (byteAt packet 14 % 16) + 13)).testBit 0 = false →
      (analyse header packet verbose c).cnt_xmasscan = c.cnt_xmasscan) := by
  have hf : (analyse header packet verbose c).cnt_xmasscan =
      if byteAt packet 12 * 256 + byteAt packet 13 = 0x0800 ∧
          ((byteAt packet (14 + 4 * (byteAt packet 14 % 16) + 13)).testBit 5 = true ∧
           (byteAt packet (14 + 4 * (byteAt packet 14 % 16) + 13)).testBit 3 = true ∧
           (byteAt packet (14 + 4 * (byteAt packet 14 % 16) + 13)).testBit 0 = true)
      then incr c.cnt_xmasscan else c.cnt_xmasscan := by
    rw [analyse_fields, eth_type_eq]
    simp only [xmasFlags_iff]
  constructor
  · intro hne
    by_contra hcon
    exact hne (by rw [hf, if_neg hcon])
  · intro hor
    rw [hf, if_neg]
    rintro ⟨h1, h2, h3, h4⟩
    rcases hor with h | h | h | h
    · exact h h1
    · rw [h2] at h; cases h
    · rw [h3] at h; cases h
    · rw [h4] at h; cases h

/-- Witness for C18: an ARP reply and a port-80 frame with only PSH and ACK set
leave `cnt_xmasscan` unchanged. -/
theorem xmas_never_overfires_witness :
    (analyse ⟨0, 0, 42, 42⟩ arpReplyFrame 0 ⟨3, 5, 7, 11⟩).cnt_xmasscan = 3 ∧
    (analyse ⟨0, 0, 73, 73⟩ bbcFrame 0 ⟨3, 5, 7, 11⟩).cnt_xmasscan = 3 :=
  ⟨(xmas_never_overfires ⟨0, 0, 42, 42⟩ arpReplyFrame 0 ⟨3, 5, 7, 11⟩).2
      (Or.inl (by decide)),
   (xmas_never_overfires ⟨0, 0, 73, 73⟩ bbcFrame 0 ⟨3, 5, 7, 11⟩).2
      (Or.inr (Or.inl (by decide)))⟩

/-- C19: `analyse` treats every IPv4 frame as TCP.  For every two frames with
Ethernet type 0x0800 and IHL >= 5 that differ at most in frame byte 23, the
IPv4 protocol, one call of `analyse` changes the four counters in the same
way; so a frame of any protocol, 17 for example, whose byte at the TCP flag
position has URG, PSH and FIN set raises `cnt_xmasscan`. -/
theorem protocol_byte_ignored (h h' : pcap_pkthdr) (p q : List Nat) (verbose : Int)
    (c : Counters)
    (htype : byteAt p 12 * 256 + byteAt p 13 = 0x0800)
    (hihl : 5 ≤ byteAt p 14 % 16)
    (hsame : ∀ k, k ≠ 23 → p[k]? = q[k]?) :
    byteAt q 12 * 256 + byteAt q 13 = 0x0800 ∧
    analyse h p verbose c = analyse h' q verbose c ∧
    ((byteAt q (14 + 4 * (byteAt q 14 % 16) + 13)).testBit 5 = true ∧
      (byteAt q (14 + 4 * (byteAt q 14 % 16) + 13)).testBit 3 = true ∧
      (byteAt q (14 + 4 * (byteAt q 14 % 16) + 13)).testBit 0 = true →
      (analyse h' q verbose c).cnt_xmasscan = (c.cnt_xmasscan + 1) % 2 ^ 32) := by
  have hq : byteAt q 12 * 256 + byteAt q 13 = 0x0800 := by
    rw [← byteAt_congr (hsame 12 (by decide)), ← byteAt_congr (hsame 13 (by decide))]
    exact htype
  refine ⟨hq, analyse_congr_except_23 h h' p q verbose verbose c hihl hsame, ?_⟩
  intro hflags
  rw [analyse_fields, eth_type_eq, hq]
  simp only [xmasFlags_iff, hflags, and_self, if_true]
  rfl

/-- Witness for C19: the Xmas frame and its copy with protocol 17 are counted
alike, and the copy raises `cnt_xmasscan` from 0 to 1. -/
theorem protocol_byte_ignored_witness :
    byteAt udpFrame 23 = 17 ∧
    analyse ⟨0, 0, 54, 54⟩ xmasFrame 0 Counters.zero
      = analyse ⟨0, 0, 54, 54⟩ udpFrame 0 Counters.zero ∧
    (analyse ⟨0, 0, 54, 54⟩ udpFrame 0 Counters.zero).cnt_xmasscan = (0 + 1) % 2 ^ 32 :=
  have h := protocol_byte_ignored ⟨0, 0, 54, 54⟩ ⟨0, 0, 54, 54⟩ xmasFrame udpFrame 0
    Counters.zero (by decide) (by decide)
    (fun k hk => (List.getElem?_set_ne (Ne.symm hk)).symm)
  ⟨by decide, h.2.1, h.2.2 (by decide)⟩

/-- C16: one pass of the `analysisthread` loop, for every state whose queue
holds a sequence `q`.  If `q` is empty the pass leaves the state, queue and
counters alike, unchanged.  If `q` is `x :: rest`, with `x` pointing to a live
header and packet block, the pass removes exactly the head: the queue then
holds `rest` in the same order, no object but the list head has changed, and
the counters are those of `analyse` on the frame that `x` points to. -/
theorem worker_iteration (adjacent : List Nat) (s : Globals) (c : Counters)
    (q : List arg_struct) (hq : QueueHolds s.heap s.queue q) :
    (q = [] → analysisthread_iteration adjacent s c = some (s, c)) ∧
    (∀ x rest hd bytes, q = x :: rest →
      s.heap.hdr x.hdr = some hd → s.heap.buf x.pkt = some bytes →
      ∃ hp', analysisthread_iteration adjacent s c =
          some ({ s with heap := hp' }, analyse hd (bytes ++ adjacent) s.verb c) ∧
        QueueHolds hp' s.queue rest ∧
        ∀ p, p ≠ s.queue → hp'.load p = s.heap.load p) :=
  analysisthread_iteration_spec adjacent s c q hq

/-- Witness for C16: a pass on the empty queue changes nothing; a pass on the
queue that holds the Xmas frame empties it and counts one Xmas scan and one
packet. -/
theorem worker_iteration_witness :
    analysisthread_iteration [] idleState ⟨3, 5, 7, 11⟩ = some (idleState, ⟨3, 5, 7, 11⟩) ∧
    ∃ hp', analysisthread_iteration [] workerState Counters.zero =
        some ({ workerState with heap := hp' }, ⟨1, 0, 0, 1⟩) ∧
      QueueHolds hp' workerState.queue [] :=
  ⟨(worker_iteration [] idleState ⟨3, 5, 7, 11⟩ []
      ⟨{ head := NULL }, [], rfl, IsList.nil, rfl⟩).1 rfl,
   let ⟨hp', h1, h2, _⟩ :=
     (worker_iteration [] workerState Counters.zero [{ hdr := 3, pkt := 4 }]
        ⟨{ head := 2 }, [(2, { hdr := 3, pkt := 4 })], rfl,
          IsList.cons (e := { next := NULL, data := { hdr := 3, pkt := 4 } }) rfl IsList.nil,
          rfl⟩).2
       { hdr := 3, pkt := 4 } [] ⟨0, 0, 54, 54⟩ xmasFrame rfl rfl rfl
   ⟨hp', h1, h2⟩⟩

/-- C17, counterexample: an execution of `sig_handler` in which both locks are
held at once.  `SIGINT` arrives on the thread that runs `addData` on an empty
queue right after the lock of line 50, or on a worker right after the lock of
line 81: the handler locks `muxlock2` while its thread holds `muxlock`. -/
theorem handler_nests_locks :
    (lockCallsOf (interruptedAfter 1 (addData_traced 1 ⟨7, 8⟩ emptyQueueHeap).events
        (sig_handler SIGINT Counters.zero).events)
      = [LockEvent.lock Mutex.muxlock, LockEvent.lock Mutex.muxlock2,
          LockEvent.unlock Mutex.muxlock2] ∧
      heldAfter ((lockCallsOf (interruptedAfter 1
          (addData_traced 1 ⟨7, 8⟩ emptyQueueHeap).events
          (sig_handler SIGINT Counters.zero).events)).take 2)
        = [Mutex.muxlock2, Mutex.muxlock] ∧
      runLocks none (lockCallsOf (interruptedAfter 1
          (addData_traced 1 ⟨7, 8⟩ emptyQueueHeap).events
          (sig_handler SIGINT Counters.zero).events)) = none) ∧
    (heldAfter ((lockCallsOf (interruptedAfter 1
          (analysisthread_traced [] workerState Counters.zero).events
          (sig_handler SIGINT Counters.zero).events)).take 2)
        = [Mutex.muxlock2, Mutex.muxlock] ∧
      runLocks none (lockCallsOf (interruptedAfter 1
          (analysisthread_traced [] workerState Counters.zero).events
          (sig_handler SIGINT Counters.zero).events)) = none) :=
  ⟨⟨by decide, by decide, by decide⟩, by decide, by decide⟩

/-- C17, amended: no operation that starts while its thread holds no lock ever
holds `muxlock` and `muxlock2` at the same time.  In every execution of
`addData`, of `dispatch`, of `analyse`, of one pass of `analysisthread` (with
its call of `analyse`), and of `sig_handler` entered on a thread that holds no
lock, a mutex is locked only while none is held, and every lock taken is
released before the operation returns.  The lock calls are those of the
instrumented functions, whose results are the results of the plain ones. -/
theorem locks_never_nested :
    (∀ (inQueue : Nat) (inData : arg_struct) (h : Heap),
      (addData_traced inQueue inData h).value = addData inQueue inData h ∧
      LockDisciplined (addData_traced inQueue inData h)) ∧
    (∀ (junk header packet : Nat) (verbose : Int) (s : Globals),
      (dispatch_traced junk header packet verbose s).value
        = dispatch junk header packet verbose s ∧
      LockDisciplined (dispatch_traced junk header packet verbose s)) ∧
    (∀ (header : pcap_pkthdr) (packet : List Nat) (verbose : Int) (c : Counters),
      (analyse_traced packet verbose c).value = analyse header packet verbose c ∧
      runLocks none (lockCallsOf (analyse_traced packet verbose c).events) = some none) ∧
    (∀ (adjacent : List Nat) (s : Globals) (c : Counters),
      (analysisthread_traced adjacent s c).value = analysisthread_iteration adjacent s c ∧
      LockDisciplined (analysisthread_traced adjacent s c)) ∧
    (∀ (signo : Int) (c : Counters),
      runLocks none (lockCallsOf (sig_handler signo c).events) = some none) :=
  ⟨fun inQueue inData h =>
      ⟨addData_traced_value inQueue inData h, addData_traced_disciplined inQueue inData h⟩,
   fun junk header packet verbose s =>
      ⟨dispatch_traced_value junk header packet verbose s,
       dispatch_traced_disciplined junk header packet verbose s⟩,
   fun header packet verbose c =>
      ⟨analyse_traced_value header packet verbose c, analyse_traced_locks packet verbose c⟩,
   fun adjacent s c =>
      ⟨analysisthread_traced_value adjacent s c, analysisthread_traced_disciplined adjacent s c⟩,
   sig_handler_locks⟩

/-- Witness for C17 amended: a worker pass that takes the Xmas frame from the
queue and analyses it locks and unlocks `muxlock`, then `muxlock2` twice, and
ends with no lock held; so does `dispatch` of the first frame. -/
theorem locks_never_nested_witness :
    (lockCallsOf (analysisthread_traced [] workerState Counters.zero).events
      = [LockEvent.lock Mutex.muxlock, LockEvent.unlock Mutex.muxlock,
          LockEvent.lock Mutex.muxlock2, LockEvent.unlock Mutex.muxlock2,
          LockEvent.lock Mutex.muxlock2, LockEvent.unlock Mutex.muxlock2] ∧
      runLocks none (lockCallsOf (analysisthread_traced [] workerState Counters.zero).events)
        = some none) ∧
    runLocks none (lockCallsOf
      (dispatch_traced NULL 1 2 0 (Globals.init callerHeap)).events) = some none :=
  ⟨⟨by decide, (locks_never_nested.2.2.2.1 [] workerState Counters.zero).2.2 (by decide)⟩,
   (locks_never_nested.2.1 NULL 1 2 0 (Globals.init callerHeap)).2.2 (by decide)⟩

/-- C20, the code at the failing input: `initThreads` leaves in `queue->head`
whatever the fresh block holds.  With the stale value 0xdead the queue is not
empty after `initThreads`: a worker's first emptiness test takes the non-empty
branch and `removeHead` dereferences the stale pointer, and the first
`dispatch` does not take the empty-queue branch of `addData`; neither has a
defined result. -/
theorem fresh_queue_head_stale :
    (Globals.init callerHeap).i = 0 ∧
    (initThreads 0xdead (Globals.init callerHeap)).heap.list
        (initThreads 0xdead (Globals.init callerHeap)).queue = some { head := 0xdead } ∧
    (0xdead : Nat) ≠ NULL ∧
    analysisthread_iteration [] (initThreads 0xdead (Globals.init callerHeap)) Counters.zero
      = none ∧
    addData (initThreads 0xdead (Globals.init callerHeap)).queue { hdr := 1, pkt := 2 }
        (initThreads 0xdead (Globals.init callerHeap)).heap = none ∧
    dispatch 0xdead 1 2 0 (Globals.init callerHeap) = none := by
  decide

end PacketSniffer
